import Mathlib

/-!
Verification development for the enterprise orchestration core of the
Nexus-agent-hub repository (src/browser_use/enterprise/): the task and
workflow state model, the orchestrator dispatch and execution engine,
the short-term memory tier, checkpointing, and the credential vault.

Modelling conventions (shallow embedding of the Python source):
- Python values stored in memories, contexts and results are modelled by
  the inductive `PyValue` covering None, bool, int, str, list and dict
  (string-keyed, insertion ordered, as Python dicts are).  Floating point
  numbers are outside the value universe; a JSON number carrying a
  fraction or exponent part, and the NaN and Infinity constants accepted
  by the json module, parse to the `PyValue.floatLit` marker holding the
  lexeme, so no claim about such contents is ever proved.
- `datetime.now()` is modelled by an explicit clock argument (`now : Nat`
  for whole seconds; the vault uses `Int` arithmetic where an expiry can
  lie in the past); every operation that reads the clock in the source
  takes the clock explicitly.
- Python dicts are modelled as insertion-ordered association lists
  (`List (String × _)`); assignment replaces in place if the key exists
  and appends otherwise, matching dict semantics.
- Hash-derived identifiers (md5 and sha256 prefixes, uuid4 prefixes,
  strftime stamps) are modelled by the hashed text itself (or an explicit
  parameter), since only their role as opaque keys matters.
- Raised exceptions are modelled with `Except String`, carrying the
  Python `str(e)` of the exception.
-/

namespace NexusSpec

/-- Universe of Python values handled by the orchestration core.  A dict
is an insertion-ordered association list with string keys.  `floatLit`
marks a JSON-parsed float by its lexeme; floats are otherwise outside the
model (see the module docstring). -/
inductive PyValue where
  | none : PyValue
  | bool : Bool → PyValue
  | int : Int → PyValue
  | floatLit : String → PyValue
  | str : String → PyValue
  | list : List PyValue → PyValue
  | dict : List (String × PyValue) → PyValue

/-- Look up a key in an association list (first match), as Python dict
indexing does. -/
def getAssoc {α : Type} : List (String × α) → String → Option α
  | [], _ => Option.none
  | (k0, v0) :: rest, k => if k0 = k then some v0 else getAssoc rest k

/-- Python dict assignment: replace the value in place when the key is
present, append otherwise. -/
def updateAssoc {α : Type} : List (String × α) → String → α → List (String × α)
  | [], k, v => [(k, v)]
  | (k0, v0) :: rest, k, v =>
      if k0 = k then (k, v) :: rest else (k0, v0) :: updateAssoc rest k v

/-- Python `del d[k]` (first occurrence). -/
def eraseAssoc {α : Type} : List (String × α) → String → List (String × α)
  | [], _ => []
  | (k0, v0) :: rest, k => if k0 = k then rest else (k0, v0) :: eraseAssoc rest k

/-- Python `k in d` for dicts. -/
def hasKey {α : Type} (l : List (String × α)) (k : String) : Bool :=
  (getAssoc l k).isSome

/-- Python `d.get(k, default)`. -/
def dictGetD (xs : List (String × PyValue)) (k : String) (d : PyValue) : PyValue :=
  (getAssoc xs k).getD d

/-- Whether a float lexeme denotes zero (all mantissa digits are zero):
used only for truthiness of the out-of-model float marker. -/
def floatLexZero (s : String) : Bool :=
  let core := (s.toList.takeWhile (fun c => c ≠ 'e' ∧ c ≠ 'E')).filter
    (fun c => c ≠ '-' ∧ c ≠ '+' ∧ c ≠ '.')
  core ≠ [] && core.all (fun c => c = '0')

/-- Python truthiness of a value. -/
def pyTruthy : PyValue → Bool
  | PyValue.none => false
  | PyValue.bool b => b
  | PyValue.int n => n != 0
  | PyValue.floatLit s => !floatLexZero s
  | PyValue.str s => s ≠ ""
  | PyValue.list xs => !xs.isEmpty
  | PyValue.dict xs => !xs.isEmpty

/-- Python truthiness of an optional value (None is falsy). -/
def pyTruthyOpt : Option PyValue → Bool
  | Option.none => false
  | some v => pyTruthy v

/-- Python `x or y` on an optional int (None and 0 are falsy). -/
def pyOrInt (x : Option Int) (y : Int) : Int :=
  match x with
  | Option.none => y
  | some n => if n = 0 then y else n

/-- Hexadecimal digit for a value below 16 (lower case, as json emits). -/
def hexDigit (n : Nat) : Char :=
  if n < 10 then Char.ofNat (48 + n) else Char.ofNat (87 + n)

/-- Four-digit lower-case hex, for \u escapes. -/
def hex4 (n : Nat) : String :=
  String.mk [hexDigit (n / 4096 % 16), hexDigit (n / 256 % 16),
             hexDigit (n / 16 % 16), hexDigit (n % 16)]

/-- Escape one character as json.dumps does with its default
ensure_ascii=True: short escapes for the common controls, \uXXXX for
other controls and all non-ASCII (surrogate pairs above U+FFFF). -/
def jsonEscapeChar (c : Char) : String :=
  if c = '"' then "\\\""
  else if c = '\\' then "\\\\"
  else if c = Char.ofNat 10 then "\\n"
  else if c = Char.ofNat 9 then "\\t"
  else if c = Char.ofNat 13 then "\\r"
  else if c = Char.ofNat 8 then "\\b"
  else if c = Char.ofNat 12 then "\\f"
  else if c.toNat < 32 then "\\u" ++ hex4 c.toNat
  else if c.toNat < 127 then String.mk [c]
  else if c.toNat ≤ 0xFFFF then "\\u" ++ hex4 c.toNat
  else
    let v := c.toNat - 0x10000
    "\\u" ++ hex4 (0xD800 + v / 0x400) ++ "\\u" ++ hex4 (0xDC00 + v % 0x400)

/-- Quote a string as a JSON string literal. -/
def jsonQuote (s : String) : String :=
  "\"" ++ String.join (s.toList.map jsonEscapeChar) ++ "\""

mutual

/-- Model of `json.dumps` with default options (separators are a comma
followed by a space, and a colon followed by a space). -/
def jsonDumps : PyValue → String
  | PyValue.none => "null"
  | PyValue.bool true => "true"
  | PyValue.bool false => "false"
  | PyValue.int n => toString n
  | PyValue.floatLit s => s
  | PyValue.str s => jsonQuote s
  | PyValue.list xs => "[" ++ String.intercalate ", " (jsonDumpsList xs) ++ "]"
  | PyValue.dict xs => "\x7b" ++ String.intercalate ", " (jsonDumpsDict xs) ++ "\x7d"

/-- Serialize the elements of a JSON array. -/
def jsonDumpsList : List PyValue → List String
  | [] => []
  | v :: vs => jsonDumps v :: jsonDumpsList vs

/-- Serialize the pairs of a JSON object. -/
def jsonDumpsDict : List (String × PyValue) → List String
  | [] => []
  | (k, v) :: ps => (jsonQuote k ++ ": " ++ jsonDumps v) :: jsonDumpsDict ps

end

/-- JSON whitespace. -/
def isJsonWs (c : Char) : Bool :=
  c = ' ' || c = Char.ofNat 9 || c = Char.ofNat 10 || c = Char.ofNat 13

/-- Skip leading JSON whitespace. -/
def skipWs : List Char → List Char
  | [] => []
  | c :: cs => if isJsonWs c then skipWs cs else c :: cs

/-- Value of a hex digit character. -/
def hexVal (c : Char) : Option Nat :=
  let v := c.toNat
  if 48 ≤ v ∧ v ≤ 57 then some (v - 48)
  else if 97 ≤ v ∧ v ≤ 102 then some (v - 87)
  else if 65 ≤ v ∧ v ≤ 70 then some (v - 55)
  else Option.none

/-- Parse the body of a JSON string literal (after the opening quote) up
to and including the closing quote, decoding escapes as json.loads does.
Lone surrogate escapes are rejected: the Lean string type cannot carry
them, so such contents lie outside the model. -/
def parseStrChars : Nat → List Char → Option (List Char × List Char)
  | 0, _ => Option.none
  | _, [] => Option.none
  | fuel + 1, c :: cs =>
    if c = '"' then some ([], cs)
    else if c = '\\' then
      match cs with
      | [] => Option.none
      | e :: cs2 =>
        if e = '"' then (parseStrChars fuel cs2).map (fun p => ('"' :: p.1, p.2))
        else if e = '\\' then (parseStrChars fuel cs2).map (fun p => ('\\' :: p.1, p.2))
        else if e = '/' then (parseStrChars fuel cs2).map (fun p => ('/' :: p.1, p.2))
        else if e = 'b' then (parseStrChars fuel cs2).map (fun p => (Char.ofNat 8 :: p.1, p.2))
        else if e = 'f' then (parseStrChars fuel cs2).map (fun p => (Char.ofNat 12 :: p.1, p.2))
        else if e = 'n' then (parseStrChars fuel cs2).map (fun p => (Char.ofNat 10 :: p.1, p.2))
        else if e = 'r' then (parseStrChars fuel cs2).map (fun p => (Char.ofNat 13 :: p.1, p.2))
        else if e = 't' then (parseStrChars fuel cs2).map (fun p => (Char.ofNat 9 :: p.1, p.2))
        else if e = 'u' then
          match cs2 with
          | a :: b :: c2 :: d :: cs3 =>
            match hexVal a, hexVal b, hexVal c2, hexVal d with
            | some ha, some hb, some hc, some hd =>
              let u := ((ha * 16 + hb) * 16 + hc) * 16 + hd
              if 0xD800 ≤ u ∧ u ≤ 0xDBFF then
                match cs3 with
                | '\\' :: 'u' :: a2 :: b2 :: c3 :: d2 :: cs4 =>
                  match hexVal a2, hexVal b2, hexVal c3, hexVal d2 with
                  | some ha2, some hb2, some hc2, some hd2 =>
                    let u2 := ((ha2 * 16 + hb2) * 16 + hc2) * 16 + hd2
                    if 0xDC00 ≤ u2 ∧ u2 ≤ 0xDFFF then
                      (parseStrChars fuel cs4).map
                        (fun p =>
                          (Char.ofNat (0x10000 + (u - 0xD800) * 0x400 + (u2 - 0xDC00)) :: p.1,
                           p.2))
                    else Option.none
                  | _, _, _, _ => Option.none
                | _ => Option.none
              else if 0xDC00 ≤ u ∧ u ≤ 0xDFFF then Option.none
              else (parseStrChars fuel cs3).map (fun p => (Char.ofNat u :: p.1, p.2))
            | _, _, _, _ => Option.none
          | _ => Option.none
        else Option.none
    else if c.toNat < 32 then Option.none
    else (parseStrChars fuel cs).map (fun p => (c :: p.1, p.2))

/-- Split off a leading run of decimal digits. -/
def digitRun : List Char → List Char × List Char
  | [] => ([], [])
  | c :: cs =>
    if '0' ≤ c ∧ c ≤ '9' then
      let (d, r) := digitRun cs
      (c :: d, r)
    else ([], c :: cs)

/-- Numeric value of a digit run. -/
def digitsToNat (ds : List Char) : Nat :=
  ds.foldl (fun acc c => acc * 10 + (c.toNat - 48)) 0

/-- Parse a JSON number per the strict grammar used by json.loads:
an optional minus sign, an integer part without leading zeros, then an
optional fraction and exponent.  A plain integer yields `PyValue.int`;
any fraction or exponent yields the out-of-model `floatLit` marker
carrying the lexeme. -/
def parseNumber (s : List Char) : Option (PyValue × List Char) :=
  let (neg, s1) := match s with
    | '-' :: rest => (true, rest)
    | _ => (false, s)
  match digitRun s1 with
  | ([], _) => Option.none
  | (intDigits, rest1) =>
    if intDigits.length > 1 ∧ intDigits.headI = '0' then Option.none
    else
      let (fracDigits, rest2) := match rest1 with
        | '.' :: r =>
          match digitRun r with
          | ([], _) => ([], '.' :: r)
          | (ds, r2) => ('.' :: ds, r2)
        | _ => ([], rest1)
      let fracOk := fracDigits ≠ [] || rest2 = rest1
      let (expDigits, rest3) := match rest2 with
        | e :: r =>
          if e = 'e' ∨ e = 'E' then
            match r with
            | sgn :: r2 =>
              if sgn = '+' ∨ sgn = '-' then
                match digitRun r2 with
                | ([], _) => ([], e :: r)
                | (ds, r3) => (e :: sgn :: ds, r3)
              else
                match digitRun r with
                | ([], _) => ([], e :: r)
                | (ds, r3) => (e :: ds, r3)
            | [] => ([], [e])
          else ([], e :: r)
        | [] => ([], [])
      if !fracOk then Option.none
      else if fracDigits = [] ∧ expDigits = [] then
        let n : Int := Int.ofNat (digitsToNat intDigits)
        some (PyValue.int (if neg then -n else n), rest1)
      else
        let lex := (if neg then ['-'] else []) ++ intDigits ++ fracDigits ++ expDigits
        some (PyValue.floatLit (String.mk lex), rest3)

/-- Match a literal keyword prefix. -/
def stripKeyword : List Char → List Char → Option (List Char)
  | [], s => some s
  | _ :: _, [] => Option.none
  | p :: ps, c :: cs => if p = c then stripKeyword ps cs else Option.none

/-- Build a dict from key-value pairs in source order, as Python does:
a repeated key keeps its first position and takes its last value. -/
def dedupPairs (ps : List (String × PyValue)) : List (String × PyValue) :=
  ps.foldl (fun acc p => updateAssoc acc p.1 p.2) []

mutual

/-- Model of the json.loads recursive-descent value parser.  Fuel bounds
the recursion depth; it is instantiated with the input length, which
dominates any nesting depth. -/
def parseJsonValue : Nat → List Char → Option (PyValue × List Char)
  | 0, _ => Option.none
  | fuel + 1, s0 =>
    match skipWs s0 with
    | [] => Option.none
    | c :: cs =>
      if c = '"' then
        (parseStrChars (cs.length + 1) cs).map (fun p => (PyValue.str (String.mk p.1), p.2))
      else if c = '[' then
        match skipWs cs with
        | ']' :: rest => some (PyValue.list [], rest)
        | _ => (parseArrayItems fuel cs).map (fun p => (PyValue.list p.1, p.2))
      else if c = '\x7b' then
        match skipWs cs with
        | '\x7d' :: rest => some (PyValue.dict [], rest)
        | _ => (parseObjectItems fuel cs).map (fun p => (PyValue.dict (dedupPairs p.1), p.2))
      else if c = 't' then
        (stripKeyword ['r', 'u', 'e'] cs).map (fun r => (PyValue.bool true, r))
      else if c = 'f' then
        (stripKeyword ['a', 'l', 's', 'e'] cs).map (fun r => (PyValue.bool false, r))
      else if c = 'n' then
        (stripKeyword ['u', 'l', 'l'] cs).map (fun r => (PyValue.none, r))
      else if c = 'N' then
        (stripKeyword ['a', 'N'] cs).map (fun r => (PyValue.floatLit "NaN", r))
      else if c = 'I' then
        (stripKeyword ['n', 'f', 'i', 'n', 'i', 't', 'y'] cs).map
          (fun r => (PyValue.floatLit "Infinity", r))
      else if c = '-' ∧ cs.headI = 'I' then
        (stripKeyword ['I', 'n', 'f', 'i', 'n', 'i', 't', 'y'] cs).map
          (fun r => (PyValue.floatLit "-Infinity", r))
      else
        parseNumber (c :: cs)

/-- Parse the comma-separated items of a non-empty JSON array, up to and
including the closing bracket. -/
def parseArrayItems : Nat → List Char → Option (List PyValue × List Char)
  | 0, _ => Option.none
  | fuel + 1, s =>
    match parseJsonValue fuel s with
    | Option.none => Option.none
    | some (v, rest) =>
      match skipWs rest with
      | ',' :: rest2 =>
        (parseArrayItems fuel rest2).map (fun p => (v :: p.1, p.2))
      | ']' :: rest2 => some ([v], rest2)
      | _ => Option.none

/-- Parse the comma-separated pairs of a non-empty JSON object, up to and
including the closing brace, in source order (dedupPairs is applied at
the dict construction site). -/
def parseObjectItems : Nat → List Char → Option (List (String × PyValue) × List Char)
  | 0, _ => Option.none
  | fuel + 1, s =>
    match skipWs s with
    | '"' :: cs =>
      match parseStrChars (cs.length + 1) cs with
      | Option.none => Option.none
      | some (kcs, rest) =>
        match skipWs rest with
        | ':' :: rest2 =>
          match parseJsonValue fuel rest2 with
          | Option.none => Option.none
          | some (v, rest3) =>
            match skipWs rest3 with
            | ',' :: rest4 =>
              (parseObjectItems fuel rest4).map
                (fun p => ((String.mk kcs, v) :: p.1, p.2))
            | '\x7d' :: rest4 => some ([(String.mk kcs, v)], rest4)
            | _ => Option.none
        | _ => Option.none
    | _ => Option.none

end

/-- Model of `json.loads`: None models a JSONDecodeError. -/
def jsonLoads (s : String) : Option PyValue :=
  match parseJsonValue (s.length + 1) s.toList with
  | some (v, rest) => if skipWs rest = [] then some v else Option.none
  | Option.none => Option.none

/-- Content written by ShortTermMemory.set:
`json.dumps(value) if not isinstance(value, str) else value`. -/
def encodeContent (v : PyValue) : String :=
  match v with
  | PyValue.str s => s
  | _ => jsonDumps v

/-- Value produced by ShortTermMemory.get from a stored content string:
`json.loads` with the raw content as fallback on JSONDecodeError. -/
def decodeContent (s : String) : PyValue :=
  match jsonLoads s with
  | some v => v
  | Option.none => PyValue.str s

/-- Shallow embedding of `MemoryEntry` (memory.py).  The unused
`embedding : Optional[List[float]]` field is omitted (floating point,
never read by the short-term tier). -/
structure MemoryEntry where
  id : String
  content : String
  metadata : List (String × PyValue)
  created_at : Nat
  accessed_at : Nat
  access_count : Nat
  ttl_seconds : Option Int

/-- Embedding of `MemoryEntry.is_expired`: strictly more than
`ttl_seconds` seconds must have elapsed since creation; an entry with no
TTL never expires. -/
def MemoryEntry.is_expired (e : MemoryEntry) (now : Nat) : Bool :=
  match e.ttl_seconds with
  | Option.none => false
  | some t => ((now : Int) - (e.created_at : Int)) > t

/-- Embedding of `MemoryEntry.touch`. -/
def MemoryEntry.touch (e : MemoryEntry) (now : Nat) : MemoryEntry :=
  { e with accessed_at := now, access_count := e.access_count + 1 }

/-- Shallow embedding of `ShortTermMemory` (memory.py).  The backing dict
is an insertion-ordered association list. -/
structure ShortTermMemory where
  store : List (String × MemoryEntry)
  max_entries : Nat
  default_ttl : Int

/-- ShortTermMemory with the constructor defaults
(max_entries=1000, default_ttl=3600). -/
def ShortTermMemory.init : ShortTermMemory :=
  { store := [], max_entries := 1000, default_ttl := 3600 }

/-- First entry attaining the minimal access time, in iteration order:
the value Python `min(keys, key=...)` selects. -/
def minAccessPair : List (String × MemoryEntry) → Option (String × MemoryEntry)
  | [] => Option.none
  | p :: rest =>
    some (match minAccessPair rest with
          | Option.none => p
          | some q => if q.2.accessed_at < p.2.accessed_at then q else p)

/-- Embedding of `ShortTermMemory._evict_lru`: drop the entry with the
oldest access time (first such key in iteration order). -/
def ShortTermMemory.evict_lru (m : ShortTermMemory) : ShortTermMemory :=
  match minAccessPair m.store with
  | Option.none => m
  | some p => { m with store := eraseAssoc m.store p.1 }

/-- Embedding of `ShortTermMemory.set`.  Eviction runs first when the
store is at capacity; the entry id is the md5 input text (hash modelled
by its preimage); the stored TTL is `ttl or default_ttl`, so a None or 0
argument receives the default. -/
def ShortTermMemory.set (m : ShortTermMemory) (now : Nat) (key : String) (value : PyValue)
    (ttl : Option Int) (metadata : List (String × PyValue)) : ShortTermMemory :=
  let m1 := if m.store.length ≥ m.max_entries then m.evict_lru else m
  let content := encodeContent value
  let entry : MemoryEntry :=
    { id := key ++ ":" ++ content
      content := content
      metadata := metadata
      created_at := now
      accessed_at := now
      access_count := 0
      ttl_seconds := some (pyOrInt ttl m.default_ttl) }
  { m1 with store := updateAssoc m1.store key entry }

/-- Embedding of `ShortTermMemory.get`: default when absent; lazy delete
plus default when expired; otherwise touch and return the decoded
content. -/
def ShortTermMemory.get (m : ShortTermMemory) (now : Nat) (key : String) (dflt : PyValue) :
    PyValue × ShortTermMemory :=
  match getAssoc m.store key with
  | Option.none => (dflt, m)
  | some e =>
    if e.is_expired now then
      (dflt, { m with store := eraseAssoc m.store key })
    else
      (decodeContent e.content, { m with store := updateAssoc m.store key (e.touch now) })

/-- Embedding of `ShortTermMemory.delete`. -/
def ShortTermMemory.delete (m : ShortTermMemory) (key : String) : Bool × ShortTermMemory :=
  if hasKey m.store key then (true, { m with store := eraseAssoc m.store key })
  else (false, m)

/-- Embedding of `ShortTermMemory.cleanup_expired`: drop every expired
entry and return how many were removed. -/
def ShortTermMemory.cleanup_expired (m : ShortTermMemory) (now : Nat) :
    Nat × ShortTermMemory :=
  let expired := m.store.filter (fun p => p.2.is_expired now)
  (expired.length, { m with store := m.store.filter (fun p => !p.2.is_expired now) })

/-- Escape for the repr of a Python string (approximation: always
single-quoted, escaping the backslash and the quote). -/
def reprEscapeChar (c : Char) : String :=
  if c = '\\' then "\\\\"
  else if c = Char.ofNat 39 then "\\" ++ String.mk [Char.ofNat 39]
  else String.mk [c]

mutual

/-- Model of Python repr for the value universe. -/
def pyRepr : PyValue → String
  | PyValue.none => "None"
  | PyValue.bool true => "True"
  | PyValue.bool false => "False"
  | PyValue.int n => toString n
  | PyValue.floatLit s => s
  | PyValue.str s =>
      String.mk [Char.ofNat 39] ++ String.join (s.toList.map reprEscapeChar)
        ++ String.mk [Char.ofNat 39]
  | PyValue.list xs => "[" ++ String.intercalate ", " (pyReprList xs) ++ "]"
  | PyValue.dict xs => "\x7b" ++ String.intercalate ", " (pyReprDict xs) ++ "\x7d"

/-- Repr of the elements of a list. -/
def pyReprList : List PyValue → List String
  | [] => []
  | v :: vs => pyRepr v :: pyReprList vs

/-- Repr of the pairs of a dict. -/
def pyReprDict : List (String × PyValue) → List String
  | [] => []
  | (k, v) :: ps => (pyRepr (PyValue.str k) ++ ": " ++ pyRepr v) :: pyReprDict ps

end

/-- Model of Python str() as used by f-string interpolation. -/
def pyStr : PyValue → String
  | PyValue.str s => s
  | v => pyRepr v

/-- ASCII lower-casing of one character, modelling str.lower on the
keyword alphabet. -/
def toLowerAscii (c : Char) : Char :=
  if 'A' ≤ c ∧ c ≤ 'Z' then Char.ofNat (c.toNat + 32) else c

/-- Model of str.lower. -/
def lowerStr (s : String) : String :=
  String.mk (s.toList.map toLowerAscii)

/-- Whether the first list is an initial segment of the second. -/
def isPrefixChars : List Char → List Char → Bool
  | [], _ => true
  | _ :: _, [] => false
  | a :: as, b :: bs => a == b && isPrefixChars as bs

/-- Substring containment on character lists. -/
def containsSub : List Char → List Char → Bool
  | needle, [] => isPrefixChars needle []
  | needle, c :: t => isPrefixChars needle (c :: t) || containsSub needle t

/-- Python `needle in hay` for strings. -/
def strIn (needle hay : String) : Bool :=
  containsSub needle.toList hay.toList

/-- Embedding of `Orchestrator._select_agent` (orchestrator.py):
case-insensitive keyword routing over the intent text. -/
def selectAgent (intent : String) : String :=
  let intent_lower := lowerStr intent
  if ["research", "find", "search", "scrape"].any (fun kw => strIn kw intent_lower) then
    "researcher"
  else if ["compliance", "legal", "gdpr", "policy"].any (fun kw => strIn kw intent_lower) then
    "compliance"
  else if ["form", "fill", "submit", "login"].any (fun kw => strIn kw intent_lower) then
    "worker"
  else
    "worker"

/-- Keyword router as the specification states it, written independently
from the spec text of C9 for refinement comparison: the four keyword
sets tried in order, each matched case-insensitively as a substring, with
"worker" as the final default. -/
def selectAgentSpec (intent : String) : String :=
  let low := lowerStr intent
  let hits := fun (kws : List String) => kws.any (fun kw => strIn kw low)
  if hits ["research", "find", "search", "scrape"] then "researcher"
  else if hits ["compliance", "legal", "gdpr", "policy"] then "compliance"
  else if hits ["form", "fill", "submit", "login"] then "worker"
  else "worker"

/-- Decimal digit character. -/
def digitToChar (d : Nat) : Char := Char.ofNat (48 + d)

/-- Model of the Python decimal rendering str(i) of a natural number
(as produced by an f-string over an enumerate index). -/
def pyNatRepr (n : Nat) : String :=
  if n = 0 then "0" else String.mk (((Nat.digits 10 n).map digitToChar).reverse)

/-- Id of the i-th subtask generated by dispatch under a root id:
the f-string `{task.id}_sub{i}`. -/
def subId (rootId : String) (i : Nat) : String :=
  rootId ++ "_sub" ++ pyNatRepr i

/-- Shallow embedding of `AuthMethod` (sessions.py). -/
inductive AuthMethod where
  | password
  | oauth
  | api_key
  | cookie
  | session_token
  | two_factor
deriving DecidableEq

/-- Ciphertext produced by the Fernet cipher over json.dumps of a
credentials map.  The cipher together with the JSON codec on string maps
is an external, invertible coding (cryptography.fernet plus the json
module, both outside this repository), so it is modelled as a
constructor wrap around the plaintext map. -/
structure EncryptedBlob where
  plain : List (String × String)

/-- Shallow embedding of `Credential` (sessions.py).  Timestamps are Int
seconds so that an expiry produced by a negative expires_in_days can lie
in the past. -/
structure Credential where
  id : String
  service : String
  auth_method : AuthMethod
  encrypted_data : EncryptedBlob
  metadata : List (String × PyValue)
  created_at : Int
  last_used : Option Int
  expires_at : Option Int

/-- Embedding of `Credential.is_expired`: strictly after the expiry
instant; no expiry means never expired. -/
def Credential.is_expired (c : Credential) (now : Int) : Bool :=
  match c.expires_at with
  | Option.none => false
  | some e => now > e

/-- Shallow embedding of `CredentialVault` (sessions.py).  The on-disk
mirror written by _save_to_disk duplicates the in-memory table in a
single process, so one table models both. -/
structure CredentialVault where
  credentials : List (String × Credential)

/-- Embedding of `CredentialVault.store`.  The credential id is the
sha256 preimage text (hash modelled by its input); `if expires_in_days:`
is Python truthiness, so None and 0 both leave the credential without an
expiry; a day is 86400 seconds. -/
def CredentialVault.store (v : CredentialVault) (now : Int) (service : String)
    (auth_method : AuthMethod) (credentials : List (String × String))
    (metadata : List (String × PyValue)) (expires_in_days : Option Int) :
    String × CredentialVault :=
  let cred_id := service ++ ":" ++ toString now
  let encrypted : EncryptedBlob := { plain := credentials }
  let expires_at : Option Int :=
    match expires_in_days with
    | Option.none => Option.none
    | some d => if d = 0 then Option.none else some (now + d * 86400)
  let credential : Credential :=
    { id := cred_id
      service := service
      auth_method := auth_method
      encrypted_data := encrypted
      metadata := metadata
      created_at := now
      last_used := Option.none
      expires_at := expires_at }
  (cred_id, { v with credentials := updateAssoc v.credentials cred_id credential })

/-- Embedding of `CredentialVault.retrieve`: None both when the id is
unknown and when the credential is expired; the expiry test precedes the
decrypt expression; on success last_used is refreshed and the decrypted
map is returned by value. -/
def CredentialVault.retrieve (v : CredentialVault) (now : Int) (cred_id : String) :
    Option (List (String × String)) × CredentialVault :=
  match getAssoc v.credentials cred_id with
  | Option.none => (Option.none, v)
  | some c =>
    if c.is_expired now then
      (Option.none, v)
    else
      let c2 := { c with last_used := some now }
      (some c.encrypted_data.plain,
       { v with credentials := updateAssoc v.credentials cred_id c2 })

/-- Shallow embedding of `TaskPriority` (orchestrator.py). -/
inductive TaskPriority where
  | low
  | medium
  | high
  | critical
deriving DecidableEq

/-- Numeric value of a priority (the enum values 1 to 4). -/
def TaskPriority.value : TaskPriority → Nat
  | TaskPriority.low => 1
  | TaskPriority.medium => 2
  | TaskPriority.high => 3
  | TaskPriority.critical => 4

/-- Embedding of the enum call TaskPriority(x): None models the
ValueError raised on a value outside 1..4. -/
def TaskPriority.ofInt : Int → Option TaskPriority
  | 1 => some TaskPriority.low
  | 2 => some TaskPriority.medium
  | 3 => some TaskPriority.high
  | 4 => some TaskPriority.critical
  | _ => Option.none

/-- Shallow embedding of `TaskStatus` (orchestrator.py). -/
inductive TaskStatus where
  | pending
  | dispatched
  | in_progress
  | awaiting_human
  | completed
  | failed
  | cancelled
deriving DecidableEq

/-- String value of a status (the enum values). -/
def TaskStatus.value : TaskStatus → String
  | TaskStatus.pending => "pending"
  | TaskStatus.dispatched => "dispatched"
  | TaskStatus.in_progress => "in_progress"
  | TaskStatus.awaiting_human => "awaiting_human"
  | TaskStatus.completed => "completed"
  | TaskStatus.failed => "failed"
  | TaskStatus.cancelled => "cancelled"

/-- Status from its string value. -/
def TaskStatus.ofValue : String → Option TaskStatus
  | "pending" => some TaskStatus.pending
  | "dispatched" => some TaskStatus.dispatched
  | "in_progress" => some TaskStatus.in_progress
  | "awaiting_human" => some TaskStatus.awaiting_human
  | "completed" => some TaskStatus.completed
  | "failed" => some TaskStatus.failed
  | "cancelled" => some TaskStatus.cancelled
  | _ => Option.none

/-- Shallow embedding of `Task` (orchestrator.py). -/
structure Task where
  id : String
  intent : String
  priority : TaskPriority
  status : TaskStatus
  assigned_agent : Option String
  parent_task_id : Option String
  subtasks : List String
  context : List (String × PyValue)
  result : Option PyValue
  error : Option String
  created_at : Nat
  completed_at : Option Nat
  checkpoint_id : Option String

/-- Shallow embedding of `WorkflowState` (orchestrator.py); the tasks
dict is an insertion-ordered association list. -/
structure WorkflowState where
  workflow_id : String
  tasks : List (String × Task)
  active_agents : List String
  completed_count : Nat
  failed_count : Nat
  started_at : Nat

/-- Serialized form of one Task inside a pickled checkpoint: statuses and
priorities by their enum values, everything else structurally. -/
structure TaskData where
  id : String
  intent : String
  priority : Nat
  status : String
  assigned_agent : Option String
  parent_task_id : Option String
  subtasks : List String
  context : List (String × PyValue)
  result : Option PyValue
  error : Option String
  created_at : Nat
  completed_at : Option Nat
  checkpoint_id : Option String

/-- Serialized form of a WorkflowState (the pickle.dumps byte blob is
modelled by this structural encoding). -/
structure StateData where
  workflow_id : String
  tasks : List (String × TaskData)
  active_agents : List String
  completed_count : Nat
  failed_count : Nat
  started_at : Nat

/-- Serialize one task. -/
def encodeTask (t : Task) : TaskData :=
  { id := t.id
    intent := t.intent
    priority := t.priority.value
    status := t.status.value
    assigned_agent := t.assigned_agent
    parent_task_id := t.parent_task_id
    subtasks := t.subtasks
    context := t.context
    result := t.result
    error := t.error
    created_at := t.created_at
    completed_at := t.completed_at
    checkpoint_id := t.checkpoint_id }

/-- Deserialize one task; fails on a status or priority value no enum
member carries (never produced by encodeTask). -/
def decodeTask (d : TaskData) : Option Task :=
  match TaskStatus.ofValue d.status, TaskPriority.ofInt (Int.ofNat d.priority) with
  | some st, some pr =>
    some { id := d.id
           intent := d.intent
           priority := pr
           status := st
           assigned_agent := d.assigned_agent
           parent_task_id := d.parent_task_id
           subtasks := d.subtasks
           context := d.context
           result := d.result
           error := d.error
           created_at := d.created_at
           completed_at := d.completed_at
           checkpoint_id := d.checkpoint_id }
  | _, _ => Option.none

/-- Serialize the tasks table. -/
def encodeTasks : List (String × Task) → List (String × TaskData)
  | [] => []
  | (k, t) :: rest => (k, encodeTask t) :: encodeTasks rest

/-- Deserialize the tasks table. -/
def decodeTasks : List (String × TaskData) → Option (List (String × Task))
  | [] => some []
  | (k, d) :: rest =>
    match decodeTask d, decodeTasks rest with
    | some t, some ts => some ((k, t) :: ts)
    | _, _ => Option.none

/-- Model of pickle.dumps on a WorkflowState. -/
def encodeState (st : WorkflowState) : StateData :=
  { workflow_id := st.workflow_id
    tasks := encodeTasks st.tasks
    active_agents := st.active_agents
    completed_count := st.completed_count
    failed_count := st.failed_count
    started_at := st.started_at }

/-- Model of pickle.loads on checkpoint state bytes. -/
def decodeState (d : StateData) : Option WorkflowState :=
  match decodeTasks d.tasks with
  | some ts =>
    some { workflow_id := d.workflow_id
           tasks := ts
           active_agents := d.active_agents
           completed_count := d.completed_count
           failed_count := d.failed_count
           started_at := d.started_at }
  | Option.none => Option.none

/-- Shallow embedding of `Checkpoint` (memory.py). -/
structure CheckpointRecord where
  id : String
  workflow_id : String
  state_data : StateData
  created_at : Nat
  metadata : List (String × PyValue)

/-- Shallow embedding of `CheckpointManager` (memory.py): the in-memory
table, which the on-disk .ckpt files mirror within one process, keyed by
checkpoint id. -/
structure CheckpointManager where
  checkpoints : List (String × CheckpointRecord)

/-- Embedding of `CheckpointManager.save` (the two-argument method):
serialize the state, record the checkpoint under an id derived from the
workflow id and the current timestamp, and return the id. -/
def CheckpointManager.save (m : CheckpointManager) (now : Nat) (workflow_id : String)
    (state : WorkflowState) (metadata : List (String × PyValue)) :
    String × CheckpointManager :=
  let checkpoint_id := "ckpt_" ++ workflow_id ++ "_" ++ toString now
  let record : CheckpointRecord :=
    { id := checkpoint_id
      workflow_id := workflow_id
      state_data := encodeState state
      created_at := now
      metadata := metadata }
  (checkpoint_id, { m with checkpoints := updateAssoc m.checkpoints checkpoint_id record })

/-- Embedding of `CheckpointManager.load`: find the record (memory first,
the disk mirror holding the same table) and deserialize its state. -/
def CheckpointManager.load (m : CheckpointManager) (checkpoint_id : String) :
    Except String WorkflowState :=
  match getAssoc m.checkpoints checkpoint_id with
  | Option.none => Except.error ("Checkpoint not found: " ++ checkpoint_id)
  | some c =>
    match decodeState c.state_data with
    | some st => Except.ok st
    | Option.none => Except.error "UnpicklingError"

/-- Shallow embedding of `MemoryManager` (memory.py) restricted to the
fields the orchestrator touches: the long-term entry log (vector-store
contents are irrelevant to the claims) and the checkpoint manager. -/
structure MemoryManager where
  lt_entries : List String
  checkpoints : CheckpointManager

/-- Embedding of `MemoryManager.store_task_result`: persists the intent
and result of a task to long-term memory, but only when `task.result` is
truthy. -/
def MemoryManager.store_task_result (m : MemoryManager) (task : Task) : MemoryManager :=
  if pyTruthyOpt task.result then
    { m with lt_entries := m.lt_entries ++
        [jsonDumps (PyValue.dict [("intent", PyValue.str task.intent),
                                  ("result", task.result.getD PyValue.none)])] }
  else m

/-- Embedding of `MemoryManager.save_checkpoint`.  The source line is
`return await self.checkpoints.save(state)`: it passes a single
positional argument to `CheckpointManager.save(self, workflow_id, state,
metadata=None)`, whose second required parameter is then missing, so the
call raises TypeError before any checkpoint is produced (the async
wrapper with the matching one-argument signature is `save_async`, which
this method does not call). -/
def MemoryManager.save_checkpoint (_m : MemoryManager) (_state : WorkflowState) :
    Except String String :=
  Except.error
    "TypeError: save() missing 1 required positional argument: \x27state\x27"

/-- Subtask descriptor returned by a dispatcher agent: the
`(intent, agent, priority, context)` payload of one entry of the
`subtasks` list of `analyze`, with the dict.get defaults already
applied (priority 2, empty context, agent None). -/
structure SubDescr where
  intent : String
  agent : Option String
  priority : Int
  context : List (String × PyValue)

/-- Capability interface of a specialist agent as the orchestrator
consumes it: `execute` for every agent, `check` for a compliance agent
(returning the check dict), `analyze` for a dispatcher agent (returning
well-formed subtask descriptors, per the capability contract). -/
structure AgentImpl where
  execute : String → List (String × PyValue) → Except String PyValue
  check : String → List (String × PyValue) → Except String (List (String × PyValue))
  analyze : String → List (String × PyValue) → Except String (List SubDescr)

/-- Shallow embedding of the `Orchestrator` configuration
(orchestrator.py). -/
structure Orchestrator where
  agents : List (String × AgentImpl)
  memory : Option MemoryManager
  max_parallel : Nat
  human_in_loop : Bool

/-- Mutable context of one workflow run: the workflow state, the memory
manager, and an instrumentation trace recording the name of the agent of
each `agent.execute` invocation, in call order. -/
structure RunState where
  wf : WorkflowState
  memory : Option MemoryManager
  trace : List String

/-- Effective agent name of a task as `_execute_single_task` resolves
it: `task.assigned_agent or self._select_agent(task.intent)` — Python
`or` treats None and the empty string as falsy. -/
def taskAgentName (t : Task) : String :=
  match t.assigned_agent with
  | Option.none => selectAgent t.intent
  | some a => if a = "" then selectAgent t.intent else a

/-- Embedding of `Orchestrator._execute_single_task` on the task stored
under `tid`.  Mirrors the source: agent resolution through the Python
`or` fallback, failure when no agent is registered, the compliance
pre-check (whose not-approved outcome either marks the task
AWAITING_HUMAN and falls through to the execute call, or raises), the
execute call, result and counter updates, exception capture into
FAILED/error, and the finally-block removal from active_agents. -/
def executeSingleTask (o : Orchestrator) (now : Nat) (tid : String) (rs : RunState) :
    PyValue × RunState :=
  match getAssoc rs.wf.tasks tid with
  | Option.none => (PyValue.dict [("error", PyValue.str "task not found")], rs)
  | some task =>
    let agent_name := taskAgentName task
    match getAssoc o.agents agent_name with
    | Option.none =>
      let err := "No agent available: " ++ agent_name
      let task1 := { task with status := TaskStatus.failed, error := some err }
      let wf1 := { rs.wf with
        tasks := updateAssoc rs.wf.tasks tid task1
        failed_count := rs.wf.failed_count + 1 }
      (PyValue.dict [("error", PyValue.str err)], { rs with wf := wf1 })
    | some agent =>
      let task1 :=
        { task with status := TaskStatus.in_progress, assigned_agent := some agent_name }
      let wf1 := { rs.wf with
        tasks := updateAssoc rs.wf.tasks tid task1
        active_agents := rs.wf.active_agents ++ [agent_name] }
      let gate : Except String Task :=
        if agent_name ≠ "compliance" ∧ hasKey o.agents "compliance" then
          match getAssoc o.agents "compliance" with
          | some comp =>
            match comp.check task1.intent task1.context with
            | Except.error e => Except.error e
            | Except.ok cv =>
              if pyTruthy (dictGetD cv "approved" (PyValue.bool true)) then
                Except.ok task1
              else if o.human_in_loop then
                Except.ok { task1 with status := TaskStatus.awaiting_human }
              else
                Except.error
                  ("Compliance blocked: " ++ pyStr (dictGetD cv "reason" PyValue.none))
          | Option.none => Except.ok task1
        else Except.ok task1
      match gate with
      | Except.error e =>
        let task2 := { task1 with status := TaskStatus.failed, error := some e }
        let wf2 := { wf1 with
          tasks := updateAssoc wf1.tasks tid task2
          failed_count := wf1.failed_count + 1 }
        let wf3 := { wf2 with active_agents := wf2.active_agents.erase agent_name }
        (PyValue.dict [("error", PyValue.str e)], { rs with wf := wf3 })
      | Except.ok task2 =>
        let wf2 := { wf1 with tasks := updateAssoc wf1.tasks tid task2 }
        let trace2 := rs.trace ++ [agent_name]
        match agent.execute task2.intent task2.context with
        | Except.error e =>
          let task3 := { task2 with status := TaskStatus.failed, error := some e }
          let wf3 := { wf2 with
            tasks := updateAssoc wf2.tasks tid task3
            failed_count := wf2.failed_count + 1 }
          let wf4 := { wf3 with active_agents := wf3.active_agents.erase agent_name }
          (PyValue.dict [("error", PyValue.str e)], { rs with wf := wf4, trace := trace2 })
        | Except.ok result =>
          let task3 := { task2 with
            status := TaskStatus.completed
            completed_at := some now
            result := some result }
          let wf3 := { wf2 with
            tasks := updateAssoc wf2.tasks tid task3
            completed_count := wf2.completed_count + 1 }
          let mem2 := rs.memory.map (fun mm => mm.store_task_result task3)
          let wf4 := { wf3 with active_agents := wf3.active_agents.erase agent_name }
          (result, { wf := wf4, memory := mem2, trace := trace2 })

/-- Embedding of `Orchestrator._execute_subtasks`: the asyncio.gather of
semaphore-wrapped runs.  `_execute_single_task` never raises (its body
catches every exception), each run mutates only its own task entry and
the shared counters between suspension points, and gather returns
results in argument order, so the denotation is this in-order fold; the
bounded-concurrency aspect of the semaphore is modelled separately by
`SemStep`. -/
def executeSubtasks (o : Orchestrator) (now : Nat) : List String → RunState →
    List PyValue × RunState
  | [], rs => ([], rs)
  | tid :: rest, rs =>
    let (r, rs1) := executeSingleTask o now tid rs
    let (rl, rs2) := executeSubtasks o now rest rs1
    (r :: rl, rs2)

/-- Python `{**parent, **updates}` context merge. -/
def mergeCtx (parent updates : List (String × PyValue)) : List (String × PyValue) :=
  updates.foldl (fun acc p => updateAssoc acc p.1 p.2) parent

/-- Subtask registration loop of `Orchestrator._dispatch`: each
descriptor becomes a child task with id `{rootId}_sub{i}`, merged
context, and descriptor agent; it is registered in the tasks table and
appended to the subtasks list of the root.  A priority outside the enum
raises ValueError, surfacing with the state mutated so far. -/
def buildSubtasks (now : Nat) (rootId : String) (rootCtx : List (String × PyValue)) :
    Nat → List SubDescr → WorkflowState → (Except String (List String)) × WorkflowState
  | _, [], wf => (Except.ok [], wf)
  | i, d :: ds, wf =>
    match TaskPriority.ofInt d.priority with
    | Option.none =>
      (Except.error (toString d.priority ++ " is not a valid TaskPriority"), wf)
    | some prio =>
      let sid := subId rootId i
      let subtask : Task :=
        { id := sid
          intent := d.intent
          priority := prio
          status := TaskStatus.pending
          assigned_agent := d.agent
          parent_task_id := some rootId
          subtasks := []
          context := mergeCtx rootCtx d.context
          result := Option.none
          error := Option.none
          created_at := now
          completed_at := Option.none
          checkpoint_id := Option.none }
      let wf1 := { wf with tasks := updateAssoc wf.tasks sid subtask }
      let wf2 :=
        match getAssoc wf1.tasks rootId with
        | some root =>
          let root2 := { root with subtasks := root.subtasks ++ [sid] }
          { wf1 with tasks := updateAssoc wf1.tasks rootId root2 }
        | Option.none => wf1
      match buildSubtasks now rootId rootCtx (i + 1) ds wf2 with
      | (Except.error e, wf3) => (Except.error e, wf3)
      | (Except.ok ids, wf3) => (Except.ok (sid :: ids), wf3)

/-- Embedding of `Orchestrator._dispatch`: with a dispatcher agent, mark
the root DISPATCHED, analyze, and register one child task per
descriptor; without one, assign the keyword-routed agent to the root and
return it as the single task to execute. -/
def dispatch (o : Orchestrator) (now : Nat) (rootId : String) (wf : WorkflowState) :
    (Except String (List String)) × WorkflowState :=
  match getAssoc o.agents "dispatcher", getAssoc wf.tasks rootId with
  | some da, some root =>
    let root1 := { root with status := TaskStatus.dispatched }
    let wf1 := { wf with tasks := updateAssoc wf.tasks rootId root1 }
    match da.analyze root1.intent root1.context with
    | Except.error e => (Except.error e, wf1)
    | Except.ok descrs => buildSubtasks now rootId root1.context 0 descrs wf1
  | Option.none, some root =>
    let root1 := { root with assigned_agent := some (selectAgent root.intent) }
    (Except.ok [rootId], { wf with tasks := updateAssoc wf.tasks rootId root1 })
  | _, Option.none => (Except.error "task not found", wf)

/-- Python `"error" in r` over a result value: key membership for a
dict, element membership for a list, substring for a str, TypeError
otherwise. -/
def pyInResult (key : String) (r : PyValue) : Except String Bool :=
  match r with
  | PyValue.dict xs => Except.ok (hasKey xs key)
  | PyValue.list xs =>
    Except.ok (xs.any (fun v => match v with | PyValue.str s => s == key | _ => false))
  | PyValue.str s => Except.ok (strIn key s)
  | _ => Except.error "TypeError: argument of type is not iterable"

/-- Partition results into the successes (no "error" membership) and the
failures, preserving order, as the two comprehensions of
`_aggregate_results` do; a TypeError from the membership test surfaces. -/
def splitResults : List PyValue → Except String (List PyValue × List PyValue)
  | [] => Except.ok ([], [])
  | r :: rest =>
    match pyInResult "error" r with
    | Except.error e => Except.error e
    | Except.ok b =>
      match splitResults rest with
      | Except.error e => Except.error e
      | Except.ok (succ, fails) =>
        Except.ok (if b then (succ, r :: fails) else (r :: succ, fails))

/-- Aggregate summary assembled by `Orchestrator._aggregate_results`. -/
structure AggResult where
  summary : String
  successful_results : List PyValue
  failures : List PyValue
  all_subtask_ids : List String

/-- Aggregate summary as the value stored into the result field of the
root task. -/
def AggResult.toPy (a : AggResult) : PyValue :=
  PyValue.dict
    [("summary", PyValue.str a.summary),
     ("successful_results", PyValue.list a.successful_results),
     ("failures", PyValue.list a.failures),
     ("all_subtask_ids", PyValue.list (a.all_subtask_ids.map PyValue.str))]

/-- Embedding of `Orchestrator._aggregate_results`. -/
def aggregateResults (root : Task) (results : List PyValue) : Except String AggResult :=
  match splitResults results with
  | Except.error e => Except.error e
  | Except.ok (succ, fails) =>
    Except.ok
      { summary := "Completed " ++ pyNatRepr succ.length ++ "/"
          ++ pyNatRepr results.length ++ " subtasks"
        successful_results := succ
        failures := fails
        all_subtask_ids := root.subtasks }

/-- Return dict of `Orchestrator.execute`, restricted to the fields that
carry state (the remaining entries — duration, agents_used,
research_summary, compliance_status, actions, next_steps — are
presentation-only formatting of the same state). -/
inductive WorkflowResult where
  | completed (workflow_id : String) (task_id : String) (result : AggResult)
      (tasks_completed : Nat) (tasks_failed : Nat)
  | failedResult (workflow_id : String) (task_id : String) (error : String)
      (checkpoint_id : Option String)

/-- Outcome of one call of `Orchestrator.execute`: the returned value or
raised exception, together with the retained workflow run state. -/
structure ExecOutcome where
  res : Except String WorkflowResult
  rs : RunState

/-- Except-branch of `Orchestrator.execute`: mark the root FAILED with
the error, then save a checkpoint through MemoryManager when one is
attached — a call that raises TypeError (see
`MemoryManager.save_checkpoint`), which then propagates out of execute;
without a memory manager the structured failure result is returned with
no checkpoint id. -/
def execFail (rootId : String) (e : String) (rs : RunState) : ExecOutcome :=
  match getAssoc rs.wf.tasks rootId with
  | Option.none => { res := Except.error e, rs := rs }
  | some root =>
    let root1 := { root with status := TaskStatus.failed, error := some e }
    let wf1 := { rs.wf with tasks := updateAssoc rs.wf.tasks rootId root1 }
    match rs.memory with
    | Option.none =>
      { res := Except.ok (WorkflowResult.failedResult rs.wf.workflow_id rootId e Option.none)
        rs := { rs with wf := wf1 } }
    | some mm =>
      match mm.save_checkpoint wf1 with
      | Except.error te => { res := Except.error te, rs := { rs with wf := wf1 } }
      | Except.ok cid =>
        let root2 := { root1 with checkpoint_id := some cid }
        let wf2 := { wf1 with tasks := updateAssoc wf1.tasks rootId root2 }
        { res := Except.ok
            (WorkflowResult.failedResult rs.wf.workflow_id rootId e (some cid))
          rs := { rs with wf := wf2 } }

/-- Embedding of `Orchestrator.execute`: create the root task and the
workflow state, dispatch, run the subtasks, aggregate, and mark the root
COMPLETED with the aggregate; any exception from a phase goes through
`execFail`.  The uuid-derived workflow id is an explicit argument. -/
def Orchestrator.execute (o : Orchestrator) (workflow_id : String) (now : Nat)
    (intent : String) (context : List (String × PyValue)) (priority : TaskPriority) :
    ExecOutcome :=
  let rootId := "task_" ++ workflow_id ++ "_root"
  let root : Task :=
    { id := rootId
      intent := intent
      priority := priority
      status := TaskStatus.pending
      assigned_agent := Option.none
      parent_task_id := Option.none
      subtasks := []
      context := context
      result := Option.none
      error := Option.none
      created_at := now
      completed_at := Option.none
      checkpoint_id := Option.none }
  let wf0 : WorkflowState :=
    { workflow_id := workflow_id
      tasks := [(rootId, root)]
      active_agents := []
      completed_count := 0
      failed_count := 0
      started_at := now }
  match dispatch o now rootId wf0 with
  | (Except.error e, wf1) => execFail rootId e { wf := wf1, memory := o.memory, trace := [] }
  | (Except.ok subIds, wf1) =>
    let rs1 : RunState := { wf := wf1, memory := o.memory, trace := [] }
    let (results, rs2) := executeSubtasks o now subIds rs1
    let rootCur := (getAssoc rs2.wf.tasks rootId).getD root
    match aggregateResults rootCur results with
    | Except.error e => execFail rootId e rs2
    | Except.ok agg =>
      let root2 := { rootCur with
        status := TaskStatus.completed
        completed_at := some now
        result := some agg.toPy }
      let wf2 := { rs2.wf with tasks := updateAssoc rs2.wf.tasks rootId root2 }
      { res := Except.ok (WorkflowResult.completed workflow_id rootId agg
          wf2.completed_count wf2.failed_count)
        rs := { rs2 with wf := wf2 } }

/-! Association list laws used throughout the proofs. -/

theorem getAssoc_updateAssoc_self {α : Type} (l : List (String × α)) (k : String) (v : α) :
    getAssoc (updateAssoc l k v) k = some v := by
  induction l with
  | nil => simp [updateAssoc, getAssoc]
  | cons p rest ih =>
    obtain ⟨k0, v0⟩ := p
    by_cases h : k0 = k
    · simp [updateAssoc, h, getAssoc]
    · simp [updateAssoc, h, getAssoc, ih]

theorem getAssoc_updateAssoc_ne {α : Type} (l : List (String × α)) (k k2 : String) (v : α)
    (h : k2 ≠ k) : getAssoc (updateAssoc l k v) k2 = getAssoc l k2 := by
  have hne : k ≠ k2 := fun he => h he.symm
  induction l with
  | nil => simp [updateAssoc, getAssoc, hne]
  | cons p rest ih =>
    obtain ⟨k0, v0⟩ := p
    by_cases hk : k0 = k
    · subst hk
      simp [updateAssoc, getAssoc, hne]
    · by_cases hk2 : k0 = k2
      · simp [updateAssoc, hk, getAssoc, hk2, h]
      · simp [updateAssoc, hk, getAssoc, hk2, ih]

theorem updateAssoc_updateAssoc {α : Type} (l : List (String × α)) (k : String) (a b : α) :
    updateAssoc (updateAssoc l k a) k b = updateAssoc l k b := by
  induction l with
  | nil => simp [updateAssoc]
  | cons p rest ih =>
    obtain ⟨k0, v0⟩ := p
    by_cases h : k0 = k
    · simp [updateAssoc, h]
    · simp [updateAssoc, h, ih]

theorem getAssoc_eraseAssoc_ne {α : Type} (l : List (String × α)) (k k2 : String)
    (h : k2 ≠ k) : getAssoc (eraseAssoc l k) k2 = getAssoc l k2 := by
  have hne : k ≠ k2 := fun he => h he.symm
  induction l with
  | nil => simp [eraseAssoc]
  | cons p rest ih =>
    obtain ⟨k0, v0⟩ := p
    by_cases hk : k0 = k
    · subst hk
      simp [eraseAssoc, getAssoc, hne]
    · by_cases hk2 : k0 = k2
      · simp [eraseAssoc, hk, getAssoc, hk2, h]
      · simp [eraseAssoc, hk, getAssoc, hk2, ih]

theorem getAssoc_mem {α : Type} {l : List (String × α)} {k : String} {v : α}
    (h : getAssoc l k = some v) : (k, v) ∈ l := by
  induction l with
  | nil => simp [getAssoc] at h
  | cons p rest ih =>
    obtain ⟨k0, v0⟩ := p
    by_cases hk : k0 = k
    · subst hk
      simp [getAssoc] at h
      simp [h]
    · simp [getAssoc, hk] at h
      exact List.mem_cons_of_mem _ (ih h)

theorem getAssoc_of_mem_nodup {α : Type} {l : List (String × α)} {k : String} {v : α}
    (hd : (l.map Prod.fst).Nodup) (h : (k, v) ∈ l) : getAssoc l k = some v := by
  induction l with
  | nil => simp at h
  | cons p rest ih =>
    obtain ⟨k0, v0⟩ := p
    simp only [List.map_cons, List.nodup_cons] at hd
    rcases List.mem_cons.mp h with h1 | h2
    · obtain ⟨hk, hv⟩ := Prod.mk.inj h1.symm
      simp [getAssoc, hk, hv]
    · have hne : k0 ≠ k := by
        intro he
        subst he
        exact hd.1 (List.mem_map.mpr ⟨(k0, v), h2, rfl⟩)
      simpa [getAssoc, hne] using ih hd.2 h2

theorem getAssoc_none_of_keys {α : Type} {l : List (String × α)} {k : String}
    (h : ∀ p ∈ l, p.1 ≠ k) : getAssoc l k = Option.none := by
  induction l with
  | nil => simp [getAssoc]
  | cons p rest ih =>
    obtain ⟨k0, v0⟩ := p
    have hk : k0 ≠ k := h (k0, v0) (by simp)
    simpa [getAssoc, hk] using ih (fun q hq => h q (List.mem_cons_of_mem _ hq))

theorem getAssoc_eraseAssoc_self {α : Type} {l : List (String × α)} {k : String}
    (hd : (l.map Prod.fst).Nodup) : getAssoc (eraseAssoc l k) k = Option.none := by
  induction l with
  | nil => simp [eraseAssoc, getAssoc]
  | cons p rest ih =>
    obtain ⟨k0, v0⟩ := p
    simp only [List.map_cons, List.nodup_cons] at hd
    by_cases hk : k0 = k
    · subst hk
      simp only [eraseAssoc, if_pos rfl]
      apply getAssoc_none_of_keys
      intro q hq he
      exact hd.1 (List.mem_map.mpr ⟨q, hq, he⟩)
    · simpa [eraseAssoc, hk, getAssoc, hk] using ih hd.2

theorem getAssoc_none_key_ne {α : Type} {l : List (String × α)} {k : String}
    (h : getAssoc l k = Option.none) : ∀ p ∈ l, p.1 ≠ k := by
  induction l with
  | nil => simp
  | cons p rest ih =>
    obtain ⟨k0, v0⟩ := p
    by_cases hk : k0 = k
    · simp [getAssoc, hk] at h
    · intro q hq
      rcases List.mem_cons.mp hq with h1 | h2
      · subst h1; exact hk
      · exact ih (by simpa [getAssoc, hk] using h) q h2

/-! Decimal representation: value recovery and injectivity, used for the
distinctness of generated subtask ids. -/

/-- Recover the numeric value of a decimal character string. -/
def pyNatVal (s : String) : Nat := digitsToNat s.toList

theorem digitToChar_val : ∀ d, d < 10 → (digitToChar d).toNat - 48 = d := by decide

theorem foldr_digit_chars (L : List Nat) (hL : ∀ d ∈ L, d < 10) :
    (L.map digitToChar).foldr (fun x acc => acc * 10 + (x.toNat - 48)) 0 =
      Nat.ofDigits 10 L := by
  induction L with
  | nil => simp [Nat.ofDigits]
  | cons d tl ih =>
    have hd : d < 10 := hL d (by simp)
    have htl : ∀ x ∈ tl, x < 10 := fun x hx => hL x (List.mem_cons_of_mem _ hx)
    simp only [List.map_cons, List.foldr_cons, ih htl, Nat.ofDigits_cons,
      digitToChar_val d hd]
    ring

theorem pyNatVal_pyNatRepr (n : Nat) : pyNatVal (pyNatRepr n) = n := by
  by_cases h : n = 0
  · subst h; decide
  · have hdig : ∀ d ∈ Nat.digits 10 n, d < 10 :=
      fun d hd => Nat.digits_lt_base (by norm_num) hd
    simp only [pyNatRepr, if_neg h, pyNatVal, digitsToNat]
    have : (String.mk (((Nat.digits 10 n).map digitToChar).reverse)).toList =
        ((Nat.digits 10 n).map digitToChar).reverse := rfl
    rw [this, List.foldl_reverse, foldr_digit_chars _ hdig, Nat.ofDigits_digits]

theorem pyNatRepr_inj {m n : Nat} (h : pyNatRepr m = pyNatRepr n) : m = n := by
  have := congrArg pyNatVal h
  rwa [pyNatVal_pyNatRepr, pyNatVal_pyNatRepr] at this

theorem pyNatRepr_length_pos (n : Nat) : 0 < (pyNatRepr n).length := by
  by_cases h : n = 0
  · subst h; decide
  · simp only [pyNatRepr, if_neg h]
    show 0 < (((Nat.digits 10 n).map digitToChar).reverse).length
    simp [List.length_reverse]
    exact List.length_pos.mpr (Nat.digits_ne_nil_iff_ne_zero.mpr h)

theorem subId_ne_rootId (rootId : String) (i : Nat) : subId rootId i ≠ rootId := by
  intro h
  have := congrArg String.length h
  simp only [subId, String.length_append] at this
  have hp := pyNatRepr_length_pos i
  omega

theorem string_append_left_cancel {s a b : String} (h : s ++ a = s ++ b) : a = b := by
  have hd := congrArg String.data h
  simp only [String.data_append] at hd
  have := List.append_cancel_left hd
  cases a; cases b; simp_all

theorem subId_inj {rootId : String} {i j : Nat} (h : subId rootId i = subId rootId j) :
    i = j := by
  simp only [subId, String.append_assoc] at h
  exact pyNatRepr_inj (string_append_left_cancel (string_append_left_cancel h))

/-! Key-uniqueness preservation lemmas for the association-list model. -/

theorem mem_keys_updateAssoc {α : Type} {l : List (String × α)} {k x : String} {v : α}
    (h : x ∈ (updateAssoc l k v).map Prod.fst) : x ∈ l.map Prod.fst ∨ x = k := by
  induction l with
  | nil => simpa [updateAssoc] using h
  | cons p rest ih =>
    obtain ⟨k0, v0⟩ := p
    by_cases hk : k0 = k
    · simp [updateAssoc, hk] at h
      rcases h with h | h
      · right; exact h
      · left; simp [h]
    · simp [updateAssoc, hk] at h
      rcases h with h | h
      · left; simp [h]
      · rcases ih (by simpa using h) with h2 | h2
        · left; simp at h2 ⊢; right; exact h2
        · right; exact h2

theorem nodup_keys_updateAssoc {α : Type} {l : List (String × α)} (k : String) (v : α)
    (h : (l.map Prod.fst).Nodup) : ((updateAssoc l k v).map Prod.fst).Nodup := by
  induction l with
  | nil => simp [updateAssoc]
  | cons p rest ih =>
    obtain ⟨k0, v0⟩ := p
    simp only [List.map_cons, List.nodup_cons] at h
    by_cases hk : k0 = k
    · subst hk
      have hu : updateAssoc ((k0, v0) :: rest) k0 v = (k0, v) :: rest := by
        simp [updateAssoc]
      rw [hu]
      simp only [List.map_cons, List.nodup_cons]
      exact ⟨h.1, h.2⟩
    · simp only [updateAssoc, if_neg hk, List.map_cons, List.nodup_cons]
      refine ⟨?_, ih h.2⟩
      intro hmem
      rcases mem_keys_updateAssoc hmem with h2 | h2
      · exact h.1 h2
      · exact hk h2

theorem mem_keys_eraseAssoc {α : Type} {l : List (String × α)} {k x : String}
    (h : x ∈ (eraseAssoc l k).map Prod.fst) : x ∈ l.map Prod.fst := by
  induction l with
  | nil => simpa [eraseAssoc] using h
  | cons p rest ih =>
    obtain ⟨k0, v0⟩ := p
    by_cases hk : k0 = k
    · simp [eraseAssoc, hk] at h
      simp [h]
    · simp [eraseAssoc, hk] at h
      rcases h with h | h
      · simp [h]
      · simp only [List.map_cons, List.mem_cons]
        right
        exact ih (by simpa using h)

theorem nodup_keys_eraseAssoc {α : Type} {l : List (String × α)} (k : String)
    (h : (l.map Prod.fst).Nodup) : ((eraseAssoc l k).map Prod.fst).Nodup := by
  induction l with
  | nil => simp [eraseAssoc]
  | cons p rest ih =>
    obtain ⟨k0, v0⟩ := p
    simp only [List.map_cons, List.nodup_cons] at h
    by_cases hk : k0 = k
    · simp only [eraseAssoc, if_pos hk]
      exact h.2
    · simp only [eraseAssoc, if_neg hk, List.map_cons, List.nodup_cons]
      exact ⟨fun hmem => h.1 (mem_keys_eraseAssoc hmem), ih h.2⟩

/-- C9: for every intent string, `_select_agent` is total and
deterministic (it is a pure function of the intent text, so identical
text always yields the same name) and implements the case-insensitive
keyword mapping of the specification: research/find/search/scrape to
"researcher", else compliance/legal/gdpr/policy to "compliance", else
form/fill/submit/login to "worker", and "worker" for everything else —
always a non-empty agent name. -/
theorem claim9_select_agent_total_deterministic_keyword_routing (intent : String) :
    selectAgent intent = selectAgentSpec intent ∧ selectAgent intent ≠ "" := by
  refine ⟨rfl, ?_⟩
  unfold selectAgent
  dsimp only
  split
  · decide
  · split
    · decide
    · split
      · decide
      · decide

/-- C10: every entry created through ShortTermMemory.set receives a
concrete TTL: the stored ttl_seconds is `ttl or default_ttl`, never
None, and with the constructor default of default_ttl = 3600 an omitted
(None) or 0 ttl argument yields exactly 3600 seconds — so no set-created
entry is exempt from expiry, although a MemoryEntry whose ttl_seconds is
None would never expire. -/
theorem claim10_set_assigns_concrete_ttl (m : ShortTermMemory) (now : Nat) (key : String)
    (v : PyValue) (ttl : Option Int) (md : List (String × PyValue))
    (hd : m.default_ttl = 3600) :
    ∃ e, getAssoc ((m.set now key v ttl md).store) key = some e ∧
      e.ttl_seconds = some (pyOrInt ttl 3600) ∧
      ((ttl = Option.none ∨ ttl = some 0) → e.ttl_seconds = some 3600) ∧
      e.ttl_seconds ≠ Option.none := by
  rw [← hd]
  unfold ShortTermMemory.set
  refine ⟨_, getAssoc_updateAssoc_self _ _ _, rfl, ?_, by simp⟩
  rintro (h | h) <;> subst h <;> simp [pyOrInt]

/-- Witness for C10 at the default-constructed memory with a None ttl
argument. -/
theorem claim10_set_assigns_concrete_ttl_witness :
    ∃ e, getAssoc ((ShortTermMemory.init.set 7 "k" (PyValue.int 1) Option.none []).store)
        "k" = some e ∧
      e.ttl_seconds = some (pyOrInt Option.none 3600) ∧
      (((Option.none : Option Int) = Option.none ∨ (Option.none : Option Int) = some 0) →
        e.ttl_seconds = some 3600) ∧
      e.ttl_seconds ≠ Option.none :=
  claim10_set_assigns_concrete_ttl ShortTermMemory.init 7 "k" (PyValue.int 1)
    Option.none [] rfl

/-- Key uniqueness is preserved by ShortTermMemory.set. -/
theorem nodup_keys_set (m : ShortTermMemory) (now : Nat) (key : String) (v : PyValue)
    (ttl : Option Int) (md : List (String × PyValue))
    (h : (m.store.map Prod.fst).Nodup) :
    (((m.set now key v ttl md).store).map Prod.fst).Nodup := by
  unfold ShortTermMemory.set
  dsimp only
  apply nodup_keys_updateAssoc
  split
  · unfold ShortTermMemory.evict_lru
    cases hmp : minAccessPair m.store with
    | none => exact h
    | some p => exact nodup_keys_eraseAssoc _ h
  · exact h

/-- C6 counterexample: at elapsed time exactly equal to the TTL the
source is_expired test `elapsed > ttl` is false, so get returns the
stored value and keeps the entry, where the claim requires the default
and removal at elapsed ≥ ttl: entry stored at time 0 with ttl 10
seconds, read at time 10. -/
theorem claim6_counterexample_expiry_boundary :
    ((ShortTermMemory.init.set 0 "k" (PyValue.str "v") (some 10) []).get 10 "k"
        PyValue.none).1 = PyValue.str "v" ∧
    (getAssoc ((ShortTermMemory.init.set 0 "k" (PyValue.str "v") (some 10) []).get 10 "k"
        PyValue.none).2.store "k").isSome = true := ⟨rfl, rfl⟩

/-- C6 (amended): for an entry stored through set with TTL t, once
elapsed time is strictly greater than t, get returns the supplied
default and removes the entry; when elapsed ≤ t (including the boundary
instant), get returns the stored value (unchanged whenever the JSON
content layer preserves the value, which holds for every non-string
value and for strings that do not themselves parse as JSON) and the
entry remains present with its access time refreshed. -/
theorem claim6_amended_ttl_strict (m : ShortTermMemory) (t0 t1 : Nat) (key : String)
    (v : PyValue) (ttl : Option Int) (md : List (String × PyValue)) (dflt : PyValue)
    (hnodup : (m.store.map Prod.fst).Nodup)
    (hrt : decodeContent (encodeContent v) = v) :
    (((t1 : Int) - (t0 : Int) > pyOrInt ttl m.default_ttl →
      ((m.set t0 key v ttl md).get t1 key dflt).1 = dflt ∧
      getAssoc ((m.set t0 key v ttl md).get t1 key dflt).2.store key = Option.none)) ∧
    (((t1 : Int) - (t0 : Int) ≤ pyOrInt ttl m.default_ttl →
      ((m.set t0 key v ttl md).get t1 key dflt).1 = v ∧
      ∃ e, getAssoc ((m.set t0 key v ttl md).get t1 key dflt).2.store key = some e ∧
        e.content = encodeContent v ∧ e.accessed_at = t1 ∧ e.access_count = 1)) := by
  have hlook : getAssoc (m.set t0 key v ttl md).store key = some
      { id := key ++ ":" ++ encodeContent v
        content := encodeContent v
        metadata := md
        created_at := t0
        accessed_at := t0
        access_count := 0
        ttl_seconds := some (pyOrInt ttl m.default_ttl) } := by
    unfold ShortTermMemory.set
    exact getAssoc_updateAssoc_self _ _ _
  have hnodup2 := nodup_keys_set m t0 key v ttl md hnodup
  constructor
  · intro hgt
    unfold ShortTermMemory.get
    rw [hlook]
    have hexp : MemoryEntry.is_expired
        { id := key ++ ":" ++ encodeContent v
          content := encodeContent v
          metadata := md
          created_at := t0
          accessed_at := t0
          access_count := 0
          ttl_seconds := some (pyOrInt ttl m.default_ttl) } t1 = true := by
      simp [MemoryEntry.is_expired]
      exact hgt
    simp only [hexp, if_true, ite_true]
    exact ⟨trivial, getAssoc_eraseAssoc_self hnodup2⟩
  · intro hle
    unfold ShortTermMemory.get
    rw [hlook]
    have hexp : MemoryEntry.is_expired
        { id := key ++ ":" ++ encodeContent v
          content := encodeContent v
          metadata := md
          created_at := t0
          accessed_at := t0
          access_count := 0
          ttl_seconds := some (pyOrInt ttl m.default_ttl) } t1 = false := by
      simp only [MemoryEntry.is_expired, decide_eq_false_iff_not]
      omega
    simp only [hexp, if_false, ite_false, Bool.false_eq_true]
    refine ⟨hrt, ?_⟩
    refine ⟨_, getAssoc_updateAssoc_self _ _ _, rfl, rfl, rfl⟩

/-- Witness for the amended C6: an int entry with ttl 10 stored at time
0 expires at time 11 but is still returned unchanged at time 10. -/
theorem claim6_amended_ttl_strict_witness :
    ((ShortTermMemory.init.set 0 "k" (PyValue.int 42) (some 10) []).get 11 "k"
        PyValue.none).1 = PyValue.none ∧
    ((ShortTermMemory.init.set 0 "k" (PyValue.int 42) (some 10) []).get 10 "k"
        PyValue.none).1 = PyValue.int 42 := by
  constructor
  · exact ((claim6_amended_ttl_strict ShortTermMemory.init 0 11 "k" (PyValue.int 42)
      (some 10) [] PyValue.none (by simp [ShortTermMemory.init]) rfl).1 (by decide)).1
  · exact ((claim6_amended_ttl_strict ShortTermMemory.init 0 10 "k" (PyValue.int 42)
      (some 10) [] PyValue.none (by simp [ShortTermMemory.init]) rfl).2 (by decide)).1

/-- The pair selected by minAccessPair is an element of the store. -/
theorem minAccessPair_mem {l : List (String × MemoryEntry)} {q : String × MemoryEntry}
    (h : minAccessPair l = some q) : q ∈ l := by
  induction l generalizing q with
  | nil => simp [minAccessPair] at h
  | cons p rest ih =>
    simp only [minAccessPair, Option.some.injEq] at h
    cases hr : minAccessPair rest with
    | none =>
      rw [hr] at h
      dsimp only at h
      subst h
      simp
    | some q2 =>
      rw [hr] at h
      dsimp only at h
      by_cases hc : q2.2.accessed_at < p.2.accessed_at
      · rw [if_pos hc] at h
        subst h
        exact List.mem_cons_of_mem _ (ih hr)
      · rw [if_neg hc] at h
        subst h
        simp

/-- The pair selected by minAccessPair attains the minimal access time. -/
theorem minAccessPair_min {l : List (String × MemoryEntry)} {q : String × MemoryEntry}
    (h : minAccessPair l = some q) :
    ∀ p ∈ l, q.2.accessed_at ≤ p.2.accessed_at := by
  induction l generalizing q with
  | nil => simp [minAccessPair] at h
  | cons p0 rest ih =>
    intro p hp
    simp only [minAccessPair, Option.some.injEq] at h
    cases hr : minAccessPair rest with
    | none =>
      rw [hr] at h
      dsimp only at h
      subst h
      cases rest with
      | nil =>
        simp only [List.mem_singleton] at hp
        subst hp
        exact le_refl _
      | cons a t => simp [minAccessPair] at hr
    | some q2 =>
      rw [hr] at h
      dsimp only at h
      rcases List.mem_cons.mp hp with h1 | h2
      · subst h1
        by_cases hc : q2.2.accessed_at < p.2.accessed_at
        · rw [if_pos hc] at h
          subst h
          exact le_of_lt hc
        · rw [if_neg hc] at h
          subst h
          exact le_refl _
      · by_cases hc : q2.2.accessed_at < p0.2.accessed_at
        · rw [if_pos hc] at h
          subst h
          exact ih hr p h2
        · rw [if_neg hc] at h
          subst h
          exact le_trans (not_lt.mp hc) (ih hr p h2)

/-- C7: when a ShortTermMemory holding exactly max_entries entries
receives a new distinct key, set evicts exactly the entry whose access
time is strictly oldest — creation times are unconstrained, so the entry
evicted is the least-recently-accessed one, not necessarily the
oldest-created — while every other entry survives unchanged and the new
key is inserted. -/
theorem claim7_lru_evicts_least_recently_accessed (m : ShortTermMemory) (now : Nat)
    (newKey : String) (v : PyValue) (ttl : Option Int) (md : List (String × PyValue))
    (ek : String) (ee : MemoryEntry)
    (hsize : m.store.length = m.max_entries)
    (hpos : 0 < m.max_entries)
    (hnodup : (m.store.map Prod.fst).Nodup)
    (hmem : getAssoc m.store ek = some ee)
    (hmin : ∀ p ∈ m.store, p.1 ≠ ek → ee.accessed_at < p.2.accessed_at)
    (hnew : getAssoc m.store newKey = Option.none) :
    getAssoc ((m.set now newKey v ttl md).store) ek = Option.none ∧
    (∀ p ∈ m.store, p.1 ≠ ek →
      getAssoc ((m.set now newKey v ttl md).store) p.1 = some p.2) ∧
    (getAssoc ((m.set now newKey v ttl md).store) newKey).isSome = true := by
  have hmemq : (ek, ee) ∈ m.store := getAssoc_mem hmem
  have hkne : ek ≠ newKey := by
    intro h
    rw [h, hnew] at hmem
    exact Option.noConfusion hmem
  obtain ⟨q, hq⟩ : ∃ q, minAccessPair m.store = some q := by
    cases hs : m.store with
    | nil =>
      rw [hs] at hsize
      simp at hsize
      omega
    | cons a l => exact ⟨_, rfl⟩
  have hq1 : q.1 = ek := by
    by_contra hne
    have h1 := hmin q (minAccessPair_mem hq) hne
    have h2 := minAccessPair_min hq (ek, ee) hmemq
    simp only at h2
    omega
  have hq2 : q.2 = ee := by
    have hg : getAssoc m.store q.1 = some q.2 := by
      apply getAssoc_of_mem_nodup hnodup
      rw [Prod.mk.eta]
      exact minAccessPair_mem hq
    rw [hq1, hmem] at hg
    exact (Option.some.injEq _ _ ▸ hg).symm
  have hstore : (m.set now newKey v ttl md).store =
      updateAssoc (eraseAssoc m.store ek) newKey
        { id := newKey ++ ":" ++ encodeContent v
          content := encodeContent v
          metadata := md
          created_at := now
          accessed_at := now
          access_count := 0
          ttl_seconds := some (pyOrInt ttl m.default_ttl) } := by
    unfold ShortTermMemory.set
    dsimp only
    rw [if_pos (le_of_eq hsize.symm)]
    unfold ShortTermMemory.evict_lru
    rw [hq]
    dsimp only
    rw [hq1]
  rw [hstore]
  refine ⟨?_, ?_, ?_⟩
  · rw [getAssoc_updateAssoc_ne _ _ _ _ hkne]
    exact getAssoc_eraseAssoc_self hnodup
  · intro p hp hpne
    have hpnew : p.1 ≠ newKey := getAssoc_none_key_ne hnew p hp
    rw [getAssoc_updateAssoc_ne _ _ _ _ hpnew, getAssoc_eraseAssoc_ne _ _ _ hpne]
    exact getAssoc_of_mem_nodup hnodup (by rw [Prod.mk.eta]; exact hp)
  · rw [getAssoc_updateAssoc_self]
    rfl

/-- Store at capacity two for the C7 witness: key "a" was created first
but touched last (accessed_at 2); key "b" was created later but accessed
longer ago (accessed_at 1), exactly the state reached by set("a") at 0,
set("b") at 1, then get("a") at 2. -/
def claim7Store : ShortTermMemory :=
  { store := [("a", ⟨"a:1", "1", [], 0, 2, 1, some 3600⟩), ("b", ⟨"b:2", "2", [], 1, 1, 0, some 3600⟩)], max_entries := 2, default_ttl := 3600 }

/-- Witness for C7: inserting "c" evicts "b" (least recently accessed)
while "a" (oldest created, recently touched) survives. -/
theorem claim7_lru_evicts_least_recently_accessed_witness :
    getAssoc ((claim7Store.set 3 "c" (PyValue.int 3) Option.none []).store) "b" =
        Option.none ∧
    getAssoc ((claim7Store.set 3 "c" (PyValue.int 3) Option.none []).store) "a" =
        some ⟨"a:1", "1", [], 0, 2, 1, some 3600⟩ ∧
    (getAssoc ((claim7Store.set 3 "c" (PyValue.int 3) Option.none []).store) "c").isSome =
        true := by
  have h := claim7_lru_evicts_least_recently_accessed claim7Store 3 "c" (PyValue.int 3)
    Option.none [] "b" ⟨"b:2", "2", [], 1, 1, 0, some 3600⟩ rfl (by decide) (by decide)
    rfl (by decide) rfl
  exact ⟨h.1, h.2.1 ("a", ⟨"a:1", "1", [], 0, 2, 1, some 3600⟩)
    (List.mem_cons_self _ _) (by decide), h.2.2⟩

/-- Expiry computed by CredentialVault.store for a given expires_in_days
argument (Python truthiness: None and 0 both mean no expiry). -/
def expiryOf (now0 : Int) (d : Option Int) : Option Int :=
  match d with
  | Option.none => Option.none
  | some dd => if dd = 0 then Option.none else some (now0 + dd * 86400)

/-- The credential record written by CredentialVault.store. -/
def storedCred (now0 : Int) (service : String) (am : AuthMethod)
    (creds : List (String × String)) (md : List (String × PyValue)) (d : Option Int) :
    Credential :=
  { id := service ++ ":" ++ toString now0
    service := service
    auth_method := am
    encrypted_data := { plain := creds }
    metadata := md
    created_at := now0
    last_used := Option.none
    expires_at := expiryOf now0 d }

/-- C5 counterexample: a credential stored with expires_in_days = 0 gets
no expiry at all (0 is falsy in `if expires_in_days:`), so after the
clock advances ten days retrieve still returns the credentials map where
the claim requires nil. -/
theorem claim5_counterexample_zero_expiry_days :
    (((CredentialVault.mk []).store 0 "svc" AuthMethod.password
        [("user", "a"), ("pass", "b")] [] (some 0)).2.retrieve 864000
      (((CredentialVault.mk []).store 0 "svc" AuthMethod.password
        [("user", "a"), ("pass", "b")] [] (some 0)).1)).1 =
      some [("user", "a"), ("pass", "b")] := rfl

/-- C5 (amended): for every credentials map stored through
CredentialVault.store, retrieve of the returned id yields exactly the
stored map while the credential is unexpired (no expiry, or the clock at
or before the expiry instant); retrieve returns None both for an unknown
id and for an expired credential (clock strictly past the expiry), the
expiry test running before the decrypt expression; and a credential
stored with expires_in_days = 0 receives no expiry at all, so it never
expires. -/
theorem claim5_amended_vault_round_trip (v : CredentialVault) (now0 : Int)
    (service : String) (am : AuthMethod) (creds : List (String × String))
    (md : List (String × PyValue)) (d : Option Int) (now1 : Int) :
    ((match d with
      | Option.none => True
      | some dd => dd = 0 ∨ now1 ≤ now0 + dd * 86400) →
      ((v.store now0 service am creds md d).2.retrieve now1
        (v.store now0 service am creds md d).1).1 = some creds) ∧
    (∀ badId, getAssoc (v.store now0 service am creds md d).2.credentials badId =
        Option.none →
      ((v.store now0 service am creds md d).2.retrieve now1 badId).1 = Option.none) ∧
    (∀ dd, d = some dd → dd ≠ 0 → now1 > now0 + dd * 86400 →
      ((v.store now0 service am creds md d).2.retrieve now1
        (v.store now0 service am creds md d).1).1 = Option.none) ∧
    (d = some 0 → ∃ c, getAssoc (v.store now0 service am creds md d).2.credentials
        (v.store now0 service am creds md d).1 = some c ∧ c.expires_at = Option.none) := by
  have hid : (v.store now0 service am creds md d).1 = service ++ ":" ++ toString now0 := rfl
  have hstore : (v.store now0 service am creds md d).2.credentials =
      updateAssoc v.credentials (service ++ ":" ++ toString now0)
        (storedCred now0 service am creds md d) := rfl
  have hlook : getAssoc (v.store now0 service am creds md d).2.credentials
      (v.store now0 service am creds md d).1 =
      some (storedCred now0 service am creds md d) := by
    rw [hid, hstore]
    exact getAssoc_updateAssoc_self _ _ _
  refine ⟨?_, ?_, ?_, ?_⟩
  · intro hun
    unfold CredentialVault.retrieve
    rw [hlook]
    have hexp : Credential.is_expired (storedCred now0 service am creds md d) now1 =
        false := by
      unfold Credential.is_expired storedCred expiryOf
      cases d with
      | none => rfl
      | some dd =>
        dsimp only at hun ⊢
        rcases hun with h0 | hle
        · simp [h0]
        · by_cases h0 : dd = 0
          · simp [h0]
          · simp only [if_neg h0]
            simp only [decide_eq_false_iff_not]
            omega
    simp only [hexp, if_false, ite_false, Bool.false_eq_true]
    rfl
  · intro badId hbad
    unfold CredentialVault.retrieve
    rw [hbad]
  · intro dd hd h0 hgt
    unfold CredentialVault.retrieve
    rw [hlook]
    have hexp : Credential.is_expired (storedCred now0 service am creds md d) now1 =
        true := by
      unfold Credential.is_expired storedCred expiryOf
      subst hd
      dsimp only
      simp only [if_neg h0]
      simp only [decide_eq_true_eq]
      omega
    simp only [hexp, if_true, ite_true]
  · intro hd
    subst hd
    refine ⟨_, hlook, ?_⟩
    simp [storedCred, expiryOf]

/-- Witness for the amended C5: a one-day credential is retrievable
before expiry, gone strictly after it, and an unknown id yields None;
with expires_in_days = 0 the stored record carries no expiry. -/
theorem claim5_amended_vault_round_trip_witness :
    (((CredentialVault.mk []).store 0 "svc" AuthMethod.password [("user", "a")] []
        (some 1)).2.retrieve 500
      (((CredentialVault.mk []).store 0 "svc" AuthMethod.password [("user", "a")] []
        (some 1)).1)).1 = some [("user", "a")] ∧
    (((CredentialVault.mk []).store 0 "svc" AuthMethod.password [("user", "a")] []
        (some 1)).2.retrieve 200000
      (((CredentialVault.mk []).store 0 "svc" AuthMethod.password [("user", "a")] []
        (some 1)).1)).1 = Option.none ∧
    (((CredentialVault.mk []).store 0 "svc" AuthMethod.password [("user", "a")] []
        (some 1)).2.retrieve 500 "unknown-id").1 = Option.none ∧
    (∃ c, getAssoc (((CredentialVault.mk []).store 0 "svc" AuthMethod.password
        [("user", "a")] [] (some 0)).2.credentials)
      (((CredentialVault.mk []).store 0 "svc" AuthMethod.password [("user", "a")] []
        (some 0)).1) = some c ∧ c.expires_at = Option.none) := by
  have h1 := claim5_amended_vault_round_trip (CredentialVault.mk []) 0 "svc"
    AuthMethod.password [("user", "a")] [] (some 1) 500
  have h2 := claim5_amended_vault_round_trip (CredentialVault.mk []) 0 "svc"
    AuthMethod.password [("user", "a")] [] (some 1) 200000
  have h3 := claim5_amended_vault_round_trip (CredentialVault.mk []) 0 "svc"
    AuthMethod.password [("user", "a")] [] (some 0) 500
  exact ⟨h1.1 (Or.inr (by decide)), h2.2.2.1 1 rfl (by decide) (by decide),
    h1.2.1 "unknown-id" rfl, h3.2.2.2 rfl⟩

/-- Enum round trip: the status string decodes to the same status. -/
theorem TaskStatus.ofValue_value (s : TaskStatus) : TaskStatus.ofValue s.value = some s := by
  cases s <;> rfl

/-- Enum round trip: the priority value decodes to the same priority. -/
theorem TaskPriority.ofInt_value (p : TaskPriority) :
    TaskPriority.ofInt (Int.ofNat p.value) = some p := by
  cases p <;> rfl

/-- Task-level pickle round trip. -/
theorem decodeTask_encodeTask (t : Task) : decodeTask (encodeTask t) = some t := by
  unfold decodeTask encodeTask
  dsimp only
  rw [TaskStatus.ofValue_value, TaskPriority.ofInt_value]

/-- Tasks-table pickle round trip. -/
theorem decodeTasks_encodeTasks (l : List (String × Task)) :
    decodeTasks (encodeTasks l) = some l := by
  induction l with
  | nil => rfl
  | cons p rest ih =>
    obtain ⟨k, t⟩ := p
    unfold encodeTasks decodeTasks
    rw [decodeTask_encodeTask, ih]

/-- WorkflowState pickle round trip. -/
theorem decodeState_encodeState (st : WorkflowState) :
    decodeState (encodeState st) = some st := by
  unfold decodeState encodeState
  dsimp only
  rw [decodeTasks_encodeTasks]

/-- C8: for every WorkflowState and workflow id, loading the checkpoint
id returned by CheckpointManager.save yields a WorkflowState equal to
the one saved — in particular with identical task ids, per-task
statuses, and per-task result and error payloads. -/
theorem claim8_checkpoint_save_load_round_trip (m : CheckpointManager) (now : Nat)
    (workflow_id : String) (st : WorkflowState) (md : List (String × PyValue)) :
    CheckpointManager.load (m.save now workflow_id st md).2
      (m.save now workflow_id st md).1 = Except.ok st := by
  unfold CheckpointManager.save CheckpointManager.load
  dsimp only
  rw [getAssoc_updateAssoc_self]
  dsimp only
  rw [decodeState_encodeState]

/-- Phase of one subtask with respect to the semaphore-guarded region of
`_execute_subtasks`: before acquiring, inside the `async with` block
(running `_execute_single_task`), or finished (the block exited, by
normal return or by exception — `async with` releases in both cases). -/
inductive TaskPhase where
  | waiting
  | running
  | finished
deriving DecidableEq

/-- Scheduler state for one gather of subtasks: each subtask phase plus
the free permit count of the `asyncio.Semaphore`. -/
structure SemState where
  phases : List TaskPhase
  available : Nat

/-- Initial state: `count` subtasks all waiting, `n` free permits
(`asyncio.Semaphore(self.max_parallel)`). -/
def initSemState (n count : Nat) : SemState :=
  { phases := List.replicate count TaskPhase.waiting, available := n }

/-- Small-step semantics of the semaphore protocol of
`_execute_subtasks`: a waiting subtask may enter the guarded region only
when a permit is free, taking one; a running subtask leaves the region
releasing its permit, whether its body returned or raised.  Any
interleaving the event loop can produce is a sequence of these steps. -/
inductive SemStep : SemState → SemState → Prop
  | acquire (s : SemState) (i : Nat) (h : s.phases.get? i = some TaskPhase.waiting)
      (hs : 0 < s.available) :
      SemStep s { phases := s.phases.set i TaskPhase.running, available := s.available - 1 }
  | release (s : SemState) (i : Nat) (h : s.phases.get? i = some TaskPhase.running) :
      SemStep s { phases := s.phases.set i TaskPhase.finished, available := s.available + 1 }

/-- Number of subtasks inside the guarded region. -/
def runningCount (s : SemState) : Nat :=
  s.phases.countP (fun p => p == TaskPhase.running)

/-- Replacing element i (which holds y) changes countP by the predicate
difference between the new and old values. -/
theorem countP_set (l : List TaskPhase) (i : Nat) (x y : TaskPhase)
    (p : TaskPhase → Bool) (h : l.get? i = some y) :
    (l.set i x).countP p + (if p y then 1 else 0) =
      l.countP p + (if p x then 1 else 0) := by
  induction l generalizing i with
  | nil => simp at h
  | cons a rest ih =>
    cases i with
    | zero =>
      simp only [List.get?] at h
      injection h with h
      subst h
      simp only [List.set, List.countP_cons]
      omega
    | succ j =>
      simp only [List.get?] at h
      simp only [List.set, List.countP_cons]
      have := ih j h
      omega

/-- Semaphore invariant: running subtasks plus free permits always equal
the permit total. -/
theorem sem_invariant (n count : Nat) (s : SemState)
    (h : Relation.ReflTransGen SemStep (initSemState n count) s) :
    runningCount s + s.available = n := by
  induction h with
  | refl =>
    simp only [initSemState, runningCount]
    rw [List.countP_eq_zero.mpr]
    · simp
    · intro p hp
      rw [List.eq_of_mem_replicate hp]
      decide
  | tail hr step ih =>
    cases step with
    | acquire i hg hs =>
      have hc := countP_set _ i TaskPhase.running TaskPhase.waiting
        (fun p => p == TaskPhase.running) hg
      simp only [runningCount] at ih ⊢
      simp at hc
      omega
    | release i hg =>
      have hc := countP_set _ i TaskPhase.finished TaskPhase.running
        (fun p => p == TaskPhase.running) hg
      simp only [runningCount] at ih ⊢
      simp at hc
      omega

/-- C4: with max_parallel = N (N ≥ 1) and any number of subtasks, in
every state reachable by the semaphore protocol at most N subtasks are
inside their guarded execute region at once; the release step fires on
normal and exceptional exit alike, so the bound holds along the whole
run. -/
theorem claim4_bounded_parallelism (n count : Nat) (hn : 1 ≤ n) (s : SemState)
    (h : Relation.ReflTransGen SemStep (initSemState n count) s) :
    runningCount s ≤ n := by
  have := sem_invariant n count s h
  omega

/-- Witness for C4: with two permits and five subtasks, the state
reached after two acquires keeps the running count within the bound. -/
theorem claim4_bounded_parallelism_witness :
    runningCount { phases := ((List.replicate 5 TaskPhase.waiting).set 0
        TaskPhase.running).set 1 TaskPhase.running, available := 0 } ≤ 2 := by
  apply claim4_bounded_parallelism 2 5 (by decide)
  have h1 : SemStep (initSemState 2 5)
      { phases := (List.replicate 5 TaskPhase.waiting).set 0 TaskPhase.running,
        available := 1 } :=
    SemStep.acquire (initSemState 2 5) 0 rfl (by decide)
  have h2 : SemStep
      { phases := (List.replicate 5 TaskPhase.waiting).set 0 TaskPhase.running,
        available := 1 }
      { phases := ((List.replicate 5 TaskPhase.waiting).set 0 TaskPhase.running).set 1
          TaskPhase.running, available := 0 } :=
    SemStep.acquire _ 1 rfl (by decide)
  exact Relation.ReflTransGen.tail (Relation.ReflTransGen.tail
    Relation.ReflTransGen.refl h1) h2

/-- Memory manager for the C2 failing input: empty long-term store and
no checkpoints. -/
def claim2Memory : MemoryManager := { lt_entries := [], checkpoints := { checkpoints := [] } }

/-- Dispatcher whose analyze raises, driving the root phase of execute
into its exception handler. -/
def claim2Dispatcher : AgentImpl :=
  { execute := fun _ _ => Except.error "unused"
    check := fun _ _ => Except.error "unused"
    analyze := fun _ _ => Except.error "boom" }

/-- Orchestrator for the C2 failing input: a memory manager is attached
and a dispatcher is registered. -/
def claim2Orch : Orchestrator :=
  { agents := [("dispatcher", claim2Dispatcher)]
    memory := some claim2Memory
    max_parallel := 5
    human_in_loop := true }

/-- C2: with a MemoryManager attached and the dispatch phase raising,
execute marks the root task FAILED but then its exception handler calls
MemoryManager.save_checkpoint, whose body invokes CheckpointManager.save
with a single positional argument, raising TypeError — so execute raises
instead of returning the structured failure result carrying a
checkpoint id that the claim requires. -/
theorem claim2_code_bug_checkpoint_type_error :
    (claim2Orch.execute "wf1" 0 "do things" [] TaskPriority.medium).res =
      Except.error
        "TypeError: save() missing 1 required positional argument: \x27state\x27" ∧
    (∃ t, getAssoc (claim2Orch.execute "wf1" 0 "do things" []
        TaskPriority.medium).rs.wf.tasks "task_wf1_root" = some t ∧
      t.status = TaskStatus.failed ∧ t.error = some "boom") :=
  ⟨rfl, ⟨_, rfl, rfl, rfl⟩⟩

/-- Worker agent for the C1 inputs: execute returns an ok dict. -/
def claim1Worker : AgentImpl :=
  { execute := fun _ _ => Except.ok (PyValue.dict [("ok", PyValue.bool true)])
    check := fun _ _ => Except.error "unused"
    analyze := fun _ _ => Except.error "unused" }

/-- Compliance agent for the C1 inputs: every check comes back
not-approved with a reason. -/
def claim1Compliance : AgentImpl :=
  { execute := fun _ _ => Except.ok PyValue.none
    check := fun _ _ =>
      Except.ok [("approved", PyValue.bool false), ("reason", PyValue.str "pii")]
    analyze := fun _ _ => Except.error "unused" }

/-- Orchestrator for the C1 inputs with human-in-the-loop enabled. -/
def claim1Orch : Orchestrator :=
  { agents := [("worker", claim1Worker), ("compliance", claim1Compliance)]
    memory := Option.none
    max_parallel := 5
    human_in_loop := true }

/-- The same orchestrator with human-in-the-loop disabled. -/
def claim1OrchNoHil : Orchestrator := { claim1Orch with human_in_loop := false }

/-- A pending worker-assigned subtask for the C1 inputs. -/
def claim1Task : Task :=
  { id := "t1"
    intent := "fill the form"
    priority := TaskPriority.medium
    status := TaskStatus.pending
    assigned_agent := some "worker"
    parent_task_id := Option.none
    subtasks := []
    context := []
    result := Option.none
    error := Option.none
    created_at := 0
    completed_at := Option.none
    checkpoint_id := Option.none }

/-- Run state holding that single task. -/
def claim1Rs : RunState :=
  { wf := { workflow_id := "w"
            tasks := [("t1", claim1Task)]
            active_agents := []
            completed_count := 0
            failed_count := 0
            started_at := 0 }
    memory := Option.none
    trace := [] }

/-- C1 counterexample: with human-in-the-loop enabled and the compliance
check not approving, the source still falls through to the agent execute
call (the trace records the invocation) and the task ends COMPLETED with
the agent result — the claim requires AWAITING_HUMAN with no execute
invocation. -/
theorem claim1_counterexample_awaiting_human_still_executes :
    (executeSingleTask claim1Orch 5 "t1" claim1Rs).2.trace = ["worker"] ∧
    (∃ t, getAssoc (executeSingleTask claim1Orch 5 "t1" claim1Rs).2.wf.tasks "t1" =
        some t ∧
      t.status = TaskStatus.completed ∧
      t.result = some (PyValue.dict [("ok", PyValue.bool true)])) :=
  ⟨rfl, ⟨_, rfl, rfl, rfl⟩⟩

/-- C1 (amended): for a subtask whose assigned agent is not the
compliance agent, when a compliance agent is registered and its check
returns not-approved: with human-in-the-loop disabled, a blocking
ValueError is raised and recorded as that task FAILED with the
compliance error string, without invoking the underlying agent; with
human-in-the-loop enabled, the task is transiently marked AWAITING_HUMAN
but the underlying agent execute IS still invoked, and when it succeeds
the task ends COMPLETED with its result. -/
theorem claim1_amended_compliance_gate (o : Orchestrator) (now : Nat) (tid : String)
    (rs : RunState) (task : Task) (a : String) (ag comp : AgentImpl)
    (cv : List (String × PyValue))
    (htask : getAssoc rs.wf.tasks tid = some task)
    (hname : task.assigned_agent = some a)
    (hane : a ≠ "")
    (hanc : a ≠ "compliance")
    (hag : getAssoc o.agents a = some ag)
    (hcomp : getAssoc o.agents "compliance" = some comp)
    (hcheck : comp.check task.intent task.context = Except.ok cv)
    (hnotappr : pyTruthy (dictGetD cv "approved" (PyValue.bool true)) = false) :
    (o.human_in_loop = false →
      ((executeSingleTask o now tid rs).1 = PyValue.dict [("error", PyValue.str
        ("Compliance blocked: " ++ pyStr (dictGetD cv "reason" PyValue.none)))] ∧
      (executeSingleTask o now tid rs).2.trace = rs.trace ∧
      (∃ t, getAssoc (executeSingleTask o now tid rs).2.wf.tasks tid = some t ∧
        t.status = TaskStatus.failed ∧
        t.error = some ("Compliance blocked: " ++
          pyStr (dictGetD cv "reason" PyValue.none))) ∧
      (executeSingleTask o now tid rs).2.wf.failed_count = rs.wf.failed_count + 1)) ∧
    (o.human_in_loop = true →
      ((executeSingleTask o now tid rs).2.trace = rs.trace ++ [a] ∧
      (∀ v, ag.execute task.intent task.context = Except.ok v →
        (executeSingleTask o now tid rs).1 = v ∧
        (∃ t, getAssoc (executeSingleTask o now tid rs).2.wf.tasks tid = some t ∧
          t.status = TaskStatus.completed ∧ t.result = some v) ∧
        (executeSingleTask o now tid rs).2.wf.completed_count =
          rs.wf.completed_count + 1))) := by
  have hkey : hasKey o.agents "compliance" = true := by
    unfold hasKey
    rw [hcomp]
    rfl
  have han : taskAgentName task = a := by
    unfold taskAgentName
    rw [hname]
    simp [hane]
  constructor
  · intro hhil
    simp only [executeSingleTask, htask, han, hag, hcomp, hcheck, hnotappr, hhil,
      hkey, ne_eq, and_true, if_pos hanc, Bool.false_eq_true, if_false,
      ite_false]
    refine ⟨trivial, trivial, ⟨{ task with status := TaskStatus.failed, assigned_agent := some a, error := some ("Compliance blocked: " ++ pyStr (dictGetD cv "reason" PyValue.none)) }, ?_, rfl, rfl⟩⟩
    rw [updateAssoc_updateAssoc]
    exact getAssoc_updateAssoc_self _ _ _
  · intro hhil
    simp only [executeSingleTask, htask, han, hag, hcomp, hcheck, hnotappr, hhil,
      hkey, ne_eq, and_true, if_pos hanc, Bool.false_eq_true, if_false,
      ite_false, if_true, ite_true]
    constructor
    · cases hx : ag.execute task.intent task.context with
      | error e => simp [hx]
      | ok v => simp [hx]
    · intro v hv
      simp only [hv]
      refine ⟨trivial, ⟨{ task with status := TaskStatus.completed, assigned_agent := some a, completed_at := some now, result := some v }, ?_, rfl, rfl⟩, trivial⟩
      rw [updateAssoc_updateAssoc, updateAssoc_updateAssoc]
      exact getAssoc_updateAssoc_self _ _ _

/-- Witness for the amended C1: with human-in-the-loop the worker is
invoked and completes; without it the task fails with the compliance
error. -/
theorem claim1_amended_compliance_gate_witness :
    ((executeSingleTask claim1Orch 5 "t1" claim1Rs).2.trace = [] ++ ["worker"] ∧
     (executeSingleTask claim1Orch 5 "t1" claim1Rs).1 =
       PyValue.dict [("ok", PyValue.bool true)]) ∧
    (∃ t, getAssoc (executeSingleTask claim1OrchNoHil 5 "t1" claim1Rs).2.wf.tasks "t1" =
        some t ∧
      t.status = TaskStatus.failed ∧
      t.error = some ("Compliance blocked: " ++ pyStr (dictGetD
        [("approved", PyValue.bool false), ("reason", PyValue.str "pii")] "reason"
        PyValue.none))) := by
  have h1 := claim1_amended_compliance_gate claim1Orch 5 "t1" claim1Rs claim1Task
    "worker" claim1Worker claim1Compliance
    [("approved", PyValue.bool false), ("reason", PyValue.str "pii")]
    rfl rfl (by decide) (by decide) rfl rfl rfl rfl
  have h2 := claim1_amended_compliance_gate claim1OrchNoHil 5 "t1" claim1Rs claim1Task
    "worker" claim1Worker claim1Compliance
    [("approved", PyValue.bool false), ("reason", PyValue.str "pii")]
    rfl rfl (by decide) (by decide) rfl rfl rfl rfl
  have ht := h1.2 rfl
  exact ⟨⟨ht.1, (ht.2 (PyValue.dict [("ok", PyValue.bool true)]) rfl).1⟩,
    (h2.1 rfl).2.2.1⟩

/-- Outcome of running the resolved agent of a task: the value returned
by its execute, or the error it raises (or the missing-agent error). -/
def taskOutcome (o : Orchestrator) (t : Task) : Except String PyValue :=
  match getAssoc o.agents (taskAgentName t) with
  | some ag => ag.execute t.intent t.context
  | Option.none => Except.error ("No agent available: " ++ taskAgentName t)

/-- Whether an outcome is a raised exception. -/
def isErr (r : Except String PyValue) : Bool :=
  match r with
  | Except.error _ => true
  | Except.ok _ => false

/-- Result value `_execute_single_task` returns for an outcome: the
agent result, or the error dict for a caught exception. -/
def resultOf (r : Except String PyValue) : PyValue :=
  match r with
  | Except.ok v => v
  | Except.error e => PyValue.dict [("error", PyValue.str e)]

/-- Final task record written back by `_execute_single_task` when no
compliance gate runs: COMPLETED with the result, or FAILED with the
error string. -/
def finalSubTask (o : Orchestrator) (now : Nat) (t : Task) : Task :=
  match taskOutcome o t with
  | Except.ok v => { t with status := TaskStatus.completed, assigned_agent := some (taskAgentName t), completed_at := some now, result := some v }
  | Except.error e => { t with status := TaskStatus.failed, assigned_agent := some (taskAgentName t), error := some e }

/-- Behaviour of `_execute_single_task` on one task when no compliance
agent is registered and the resolved agent exists: the task entry is
rewritten to its final record, exactly one counter is incremented, and
the per-task result value is returned. -/
theorem executeSingleTask_nc_spec (o : Orchestrator) (now : Nat) (tid : String)
    (rs : RunState) (t : Task)
    (hnc : getAssoc o.agents "compliance" = Option.none)
    (ht : getAssoc rs.wf.tasks tid = some t)
    (hag : (getAssoc o.agents (taskAgentName t)).isSome = true) :
    (executeSingleTask o now tid rs).1 = resultOf (taskOutcome o t) ∧
    (executeSingleTask o now tid rs).2.wf.tasks =
      updateAssoc rs.wf.tasks tid (finalSubTask o now t) ∧
    (executeSingleTask o now tid rs).2.wf.completed_count =
      rs.wf.completed_count + (if isErr (taskOutcome o t) then 0 else 1) ∧
    (executeSingleTask o now tid rs).2.wf.failed_count =
      rs.wf.failed_count + (if isErr (taskOutcome o t) then 1 else 0) ∧
    (executeSingleTask o now tid rs).2.wf.workflow_id = rs.wf.workflow_id := by
  obtain ⟨ag, hago⟩ := Option.isSome_iff_exists.mp hag
  have hkeyf : hasKey o.agents "compliance" = false := by
    unfold hasKey
    rw [hnc]
    rfl
  have hout : taskOutcome o t = ag.execute t.intent t.context := by
    unfold taskOutcome
    rw [hago]
  cases hx : ag.execute t.intent t.context with
  | ok v =>
    have hfin : finalSubTask o now t = { t with status := TaskStatus.completed, assigned_agent := some (taskAgentName t), completed_at := some now, result := some v } := by
      unfold finalSubTask
      rw [hout, hx]
    simp only [executeSingleTask, ht, hago, hkeyf, Bool.false_eq_true, and_false,
      if_false, ite_false, hx, hout, resultOf, isErr, hfin]
    refine ⟨?_, ?_, ?_, ?_, ?_⟩
    · trivial
    · simp [updateAssoc_updateAssoc]
    · trivial
    · simp
    · trivial
  | error e =>
    have hfin : finalSubTask o now t = { t with status := TaskStatus.failed, assigned_agent := some (taskAgentName t), error := some e } := by
      unfold finalSubTask
      rw [hout, hx]
    simp only [executeSingleTask, ht, hago, hkeyf, Bool.false_eq_true, and_false,
      if_false, ite_false, hx, hout, resultOf, isErr, hfin]
    refine ⟨?_, ?_, ?_, ?_, ?_⟩
    · trivial
    · rw [updateAssoc_updateAssoc, updateAssoc_updateAssoc]
    · simp
    · trivial
    · trivial

/-- Number of raising outcomes. -/
def errCount : List (Except String PyValue) → Nat
  | [] => 0
  | r :: rest => (if isErr r then 1 else 0) + errCount rest

/-- Number of successful outcomes. -/
def okCount : List (Except String PyValue) → Nat
  | [] => 0
  | r :: rest => (if isErr r then 0 else 1) + okCount rest

theorem okCount_add_errCount (l : List (Except String PyValue)) :
    okCount l + errCount l = l.length := by
  induction l with
  | nil => rfl
  | cons r rest ih =>
    simp only [okCount, errCount, List.length_cons]
    cases h : isErr r <;> simp [h] <;> omega

/-- Behaviour of the `_execute_subtasks` gather over a list of pending
tasks with distinct ids, all present in the state and all resolvable to
registered agents, with no compliance agent: results come back in
order, the counters accumulate the per-task outcomes, every pending
task ends in its final record, and every other entry is untouched. -/
theorem executeSubtasks_nc_spec (o : Orchestrator) (now : Nat)
    (hnc : getAssoc o.agents "compliance" = Option.none) :
    ∀ (pend : List (String × Task)) (rs : RunState),
    (∀ p ∈ pend, getAssoc rs.wf.tasks p.1 = some p.2) →
    ((pend.map Prod.fst).Nodup) →
    (∀ p ∈ pend, (getAssoc o.agents (taskAgentName p.2)).isSome = true) →
    (executeSubtasks o now (pend.map Prod.fst) rs).1 =
        pend.map (fun p => resultOf (taskOutcome o p.2)) ∧
    (executeSubtasks o now (pend.map Prod.fst) rs).2.wf.completed_count =
        rs.wf.completed_count + okCount (pend.map (fun p => taskOutcome o p.2)) ∧
    (executeSubtasks o now (pend.map Prod.fst) rs).2.wf.failed_count =
        rs.wf.failed_count + errCount (pend.map (fun p => taskOutcome o p.2)) ∧
    (∀ p ∈ pend, getAssoc (executeSubtasks o now (pend.map Prod.fst) rs).2.wf.tasks p.1 =
        some (finalSubTask o now p.2)) ∧
    (∀ k, (∀ p ∈ pend, p.1 ≠ k) →
        getAssoc (executeSubtasks o now (pend.map Prod.fst) rs).2.wf.tasks k =
          getAssoc rs.wf.tasks k) ∧
    (executeSubtasks o now (pend.map Prod.fst) rs).2.wf.workflow_id =
        rs.wf.workflow_id := by
  intro pend
  induction pend with
  | nil =>
    intro rs _ _ _
    exact ⟨rfl, by simp [executeSubtasks, okCount], by simp [executeSubtasks, errCount],
      by simp, fun k _ => rfl, rfl⟩
  | cons hd rest ih =>
    intro rs hpres hnodup hag
    obtain ⟨k0, t0⟩ := hd
    have hone := executeSingleTask_nc_spec o now k0 rs t0 hnc
      (hpres (k0, t0) (by simp)) (hag (k0, t0) (by simp))
    have hk0notin : ∀ p ∈ rest, p.1 ≠ k0 := by
      intro p hp he
      simp only [List.map_cons, List.nodup_cons] at hnodup
      exact hnodup.1 (he ▸ List.mem_map.mpr ⟨p, hp, rfl⟩)
    have hpres2 : ∀ p ∈ rest, getAssoc (executeSingleTask o now k0 rs).2.wf.tasks p.1 =
        some p.2 := by
      intro p hp
      rw [hone.2.1, getAssoc_updateAssoc_ne _ _ _ _ (hk0notin p hp)]
      exact hpres p (List.mem_cons_of_mem _ hp)
    have hnodup2 : (rest.map Prod.fst).Nodup := by
      simp only [List.map_cons, List.nodup_cons] at hnodup
      exact hnodup.2
    have hag2 : ∀ p ∈ rest, (getAssoc o.agents (taskAgentName p.2)).isSome = true :=
      fun p hp => hag p (List.mem_cons_of_mem _ hp)
    have ihx := ih (executeSingleTask o now k0 rs).2 hpres2 hnodup2 hag2
    have hunf : executeSubtasks o now (((k0, t0) :: rest).map Prod.fst) rs =
        (resultOf (taskOutcome o t0) ::
          (executeSubtasks o now (rest.map Prod.fst) (executeSingleTask o now k0 rs).2).1,
         (executeSubtasks o now (rest.map Prod.fst) (executeSingleTask o now k0 rs).2).2) := by
      simp only [List.map_cons, executeSubtasks]
      rw [show executeSingleTask o now k0 rs =
        (resultOf (taskOutcome o t0), (executeSingleTask o now k0 rs).2) from
        Prod.ext hone.1 rfl]
    rw [hunf]
    refine ⟨?_, ?_, ?_, ?_, ?_, ?_⟩
    · simp only [List.map_cons]
      rw [ihx.1]
    · simp only [List.map_cons, okCount]
      rw [ihx.2.1, hone.2.2.1]
      omega
    · simp only [List.map_cons, errCount]
      rw [ihx.2.2.1, hone.2.2.2.1]
      omega
    · intro p hp
      rcases List.mem_cons.mp hp with h1 | h2
      · subst h1
        dsimp only
        rw [ihx.2.2.2.2.1 k0 hk0notin, hone.2.1]
        exact getAssoc_updateAssoc_self _ _ _
      · exact ihx.2.2.2.1 p h2
    · intro k hk
      have hne : k ≠ k0 := fun he => hk (k0, t0) (by simp) he.symm
      rw [ihx.2.2.2.2.1 k (fun q hq => hk q (List.mem_cons_of_mem _ hq)), hone.2.1,
        getAssoc_updateAssoc_ne _ _ _ _ hne]
    · rw [ihx.2.2.2.2.2, hone.2.2.2.2]

def mkSubTask (now : Nat) (rootId : String) (rootCtx : List (String × PyValue))
    (i : Nat) (d : SubDescr) : Task :=
  { id := subId rootId i
    intent := d.intent
    priority := (TaskPriority.ofInt d.priority).getD TaskPriority.medium
    status := TaskStatus.pending
    assigned_agent := d.agent
    parent_task_id := some rootId
    subtasks := []
    context := mergeCtx rootCtx d.context
    result := Option.none
    error := Option.none
    created_at := now
    completed_at := Option.none
    checkpoint_id := Option.none }

def subIdsFrom (rootId : String) : Nat → List SubDescr → List String
  | _, [] => []
  | j, _ :: ds => subId rootId j :: subIdsFrom rootId (j + 1) ds

theorem mem_subIdsFrom {rootId : String} : ∀ {ds : List SubDescr} {j : Nat} {x : String},
    x ∈ subIdsFrom rootId j ds → ∃ t, t < ds.length ∧ x = subId rootId (j + t) := by
  intro ds
  induction ds with
  | nil =>
    intro j x h
    simp [subIdsFrom] at h
  | cons d rest ih =>
    intro j x h
    simp only [subIdsFrom, List.mem_cons] at h
    rcases h with h | h
    · exact ⟨0, by simp, by simpa using h⟩
    · obtain ⟨t, ht, he⟩ := ih h
      refine ⟨t + 1, by simpa using ht, ?_⟩
      rw [he]
      congr 1
      omega

theorem nodup_subIdsFrom (rootId : String) : ∀ (ds : List SubDescr) (j : Nat),
    (subIdsFrom rootId j ds).Nodup := by
  intro ds
  induction ds with
  | nil =>
    intro j
    simp [subIdsFrom]
  | cons d rest ih =>
    intro j
    simp only [subIdsFrom, List.nodup_cons]
    refine ⟨?_, ih (j + 1)⟩
    intro hmem
    obtain ⟨t, ht, he⟩ := mem_subIdsFrom hmem
    have := subId_inj he
    omega

def buildStep (now : Nat) (rootId : String) (rootCtx : List (String × PyValue))
    (j : Nat) (d : SubDescr) (wf : WorkflowState) (root : Task) : WorkflowState :=
  { wf with tasks := updateAssoc (updateAssoc wf.tasks (subId rootId j) (mkSubTask now rootId rootCtx j d)) rootId { root with subtasks := root.subtasks ++ [subId rootId j] } }

theorem buildSubtasks_spec (now : Nat) (rootId : String) (rootCtx : List (String × PyValue)) :
    ∀ (ds : List SubDescr) (j : Nat) (wf : WorkflowState) (root : Task),
    (∀ d ∈ ds, (TaskPriority.ofInt d.priority).isSome = true) →
    getAssoc wf.tasks rootId = some root →
    (∀ i, j ≤ i → getAssoc wf.tasks (subId rootId i) = Option.none) →
    (buildSubtasks now rootId rootCtx j ds wf).1 = Except.ok (subIdsFrom rootId j ds) ∧
    getAssoc (buildSubtasks now rootId rootCtx j ds wf).2.tasks rootId =
      some { root with subtasks := root.subtasks ++ subIdsFrom rootId j ds } ∧
    (∀ t, ∀ ht : t < ds.length,
      getAssoc (buildSubtasks now rootId rootCtx j ds wf).2.tasks (subId rootId (j + t)) =
        some (mkSubTask now rootId rootCtx (j + t) (ds.get ⟨t, ht⟩))) ∧
    (∀ k, k ≠ rootId → (∀ i, j ≤ i → k ≠ subId rootId i) →
      getAssoc (buildSubtasks now rootId rootCtx j ds wf).2.tasks k =
        getAssoc wf.tasks k) ∧
    (buildSubtasks now rootId rootCtx j ds wf).2.completed_count = wf.completed_count ∧
    (buildSubtasks now rootId rootCtx j ds wf).2.failed_count = wf.failed_count ∧
    (buildSubtasks now rootId rootCtx j ds wf).2.workflow_id = wf.workflow_id := by
  intro ds
  induction ds with
  | nil =>
    intro j wf root hpr hroot hfresh
    refine ⟨rfl, ?_, ?_, fun k _ _ => rfl, rfl, rfl, rfl⟩
    · simpa [subIdsFrom] using hroot
    · intro t ht
      simp at ht
  | cons d rest ih =>
    intro j wf root hpr hroot hfresh
    obtain ⟨prio, hprio⟩ := Option.isSome_iff_exists.mp (hpr d (by simp))
    have hsidne : subId rootId j ≠ rootId := subId_ne_rootId rootId j
    have hsub0 : mkSubTask now rootId rootCtx j d =
        { id := subId rootId j, intent := d.intent, priority := prio,
          status := TaskStatus.pending, assigned_agent := d.agent,
          parent_task_id := some rootId, subtasks := [],
          context := mergeCtx rootCtx d.context, result := Option.none,
          error := Option.none, created_at := now, completed_at := Option.none,
          checkpoint_id := Option.none } := by
      simp [mkSubTask, hprio]
    have hunf : buildSubtasks now rootId rootCtx j (d :: rest) wf =
        (match buildSubtasks now rootId rootCtx (j + 1) rest
            (buildStep now rootId rootCtx j d wf root) with
         | (Except.error e, wf3) => (Except.error e, wf3)
         | (Except.ok ids, wf3) => (Except.ok (subId rootId j :: ids), wf3)) := by
      simp only [buildSubtasks, hprio]
      rw [← hsub0]
      have hlook1 : getAssoc
          (updateAssoc wf.tasks (subId rootId j) (mkSubTask now rootId rootCtx j d))
          rootId = some root := by
        rw [getAssoc_updateAssoc_ne _ _ _ _ (fun he => hsidne he.symm)]
        exact hroot
      rw [hlook1]
      rfl
    have hroot2 : getAssoc (buildStep now rootId rootCtx j d wf root).tasks rootId =
        some { root with subtasks := root.subtasks ++ [subId rootId j] } := by
      unfold buildStep
      exact getAssoc_updateAssoc_self _ _ _
    have hfresh2 : ∀ i, j + 1 ≤ i →
        getAssoc (buildStep now rootId rootCtx j d wf root).tasks (subId rootId i) =
          Option.none := by
      intro i hi
      unfold buildStep
      dsimp only
      rw [getAssoc_updateAssoc_ne _ _ _ _ (subId_ne_rootId rootId i)]
      have hne : subId rootId i ≠ subId rootId j := by
        intro he
        have := subId_inj he
        omega
      rw [getAssoc_updateAssoc_ne _ _ _ _ hne]
      exact hfresh i (by omega)
    have ihx := ih (j + 1) (buildStep now rootId rootCtx j d wf root)
      { root with subtasks := root.subtasks ++ [subId rootId j] }
      (fun q hq => hpr q (by simp [hq])) hroot2 hfresh2
    have hpair : buildSubtasks now rootId rootCtx (j + 1) rest
        (buildStep now rootId rootCtx j d wf root) =
        (Except.ok (subIdsFrom rootId (j + 1) rest),
         (buildSubtasks now rootId rootCtx (j + 1) rest
           (buildStep now rootId rootCtx j d wf root)).2) :=
      Prod.ext ihx.1 rfl
    rw [hunf, hpair]
    dsimp only
    refine ⟨rfl, ?_, ?_, ?_, ?_, ?_, ?_⟩
    · rw [ihx.2.1]
      simp [subIdsFrom]
    · intro t ht
      cases t with
      | zero =>
        have hpres := ihx.2.2.2.1 (subId rootId j) hsidne
          (fun i hi he => by have := subId_inj he; omega)
        show getAssoc (buildSubtasks now rootId rootCtx (j + 1) rest
            (buildStep now rootId rootCtx j d wf root)).2.tasks (subId rootId j) =
          some (mkSubTask now rootId rootCtx j d)
        rw [hpres]
        unfold buildStep
        dsimp only
        rw [getAssoc_updateAssoc_ne _ _ _ _ hsidne]
        exact getAssoc_updateAssoc_self _ _ _
      | succ t2 =>
        have ht2 : t2 < rest.length := by simpa using ht
        have hx := ihx.2.2.1 t2 ht2
        show getAssoc (buildSubtasks now rootId rootCtx (j + 1) rest
            (buildStep now rootId rootCtx j d wf root)).2.tasks
            (subId rootId (j + (t2 + 1))) =
          some (mkSubTask now rootId rootCtx (j + (t2 + 1)) (rest.get ⟨t2, ht2⟩))
        have harith : j + (t2 + 1) = j + 1 + t2 := by omega
        rw [harith]
        exact hx
    · intro k hkroot hksub
      have h1 := ihx.2.2.2.1 k hkroot (fun i hi => hksub i (by omega))
      rw [h1]
      unfold buildStep
      dsimp only
      rw [getAssoc_updateAssoc_ne _ _ _ _ hkroot,
        getAssoc_updateAssoc_ne _ _ _ _ (hksub j (by omega))]
    · rw [ihx.2.2.2.2.1]
      rfl
    · rw [ihx.2.2.2.2.2.1]
      rfl
    · rw [ihx.2.2.2.2.2.2]
      rfl

theorem dispatch_spec (o : Orchestrator) (now : Nat) (rootId : String)
    (wf0 : WorkflowState) (root : Task) (da : AgentImpl) (descrs : List SubDescr)
    (hd : getAssoc o.agents "dispatcher" = some da)
    (hroot : getAssoc wf0.tasks rootId = some root)
    (hana : da.analyze root.intent root.context = Except.ok descrs)
    (hfresh : ∀ i, getAssoc wf0.tasks (subId rootId i) = Option.none)
    (hpr : ∀ d ∈ descrs, (TaskPriority.ofInt d.priority).isSome = true) :
    (dispatch o now rootId wf0).1 = Except.ok (subIdsFrom rootId 0 descrs) ∧
    getAssoc (dispatch o now rootId wf0).2.tasks rootId =
      some { root with status := TaskStatus.dispatched, subtasks := root.subtasks ++ subIdsFrom rootId 0 descrs } ∧
    (∀ t, ∀ ht : t < descrs.length,
      getAssoc (dispatch o now rootId wf0).2.tasks (subId rootId t) =
        some (mkSubTask now rootId root.context t (descrs.get ⟨t, ht⟩))) ∧
    (∀ k, k ≠ rootId → (∀ i, k ≠ subId rootId i) →
      getAssoc (dispatch o now rootId wf0).2.tasks k = getAssoc wf0.tasks k) ∧
    (dispatch o now rootId wf0).2.completed_count = wf0.completed_count ∧
    (dispatch o now rootId wf0).2.failed_count = wf0.failed_count ∧
    (dispatch o now rootId wf0).2.workflow_id = wf0.workflow_id := by
  have hunf : dispatch o now rootId wf0 = buildSubtasks now rootId root.context 0 descrs
      { wf0 with tasks := updateAssoc wf0.tasks rootId ({ root with status := TaskStatus.dispatched }) } := by
    unfold dispatch
    rw [hd, hroot]
    dsimp only
    rw [hana]
  have hroot1 : getAssoc
      ({ wf0 with tasks := updateAssoc wf0.tasks rootId ({ root with status := TaskStatus.dispatched }) } : WorkflowState).tasks rootId =
      some ({ root with status := TaskStatus.dispatched }) := by
    dsimp only
    exact getAssoc_updateAssoc_self _ _ _
  have hfresh1 : ∀ i, 0 ≤ i → getAssoc
      ({ wf0 with tasks := updateAssoc wf0.tasks rootId ({ root with status := TaskStatus.dispatched }) } : WorkflowState).tasks (subId rootId i) = Option.none := by
    intro i _
    dsimp only
    rw [getAssoc_updateAssoc_ne _ _ _ _ (subId_ne_rootId rootId i)]
    exact hfresh i
  have hb := buildSubtasks_spec now rootId root.context descrs 0
    ({ wf0 with tasks := updateAssoc wf0.tasks rootId ({ root with status := TaskStatus.dispatched }) })
    ({ root with status := TaskStatus.dispatched }) hpr hroot1 hfresh1
  rw [hunf]
  refine ⟨hb.1, hb.2.1, ?_, ?_, hb.2.2.2.2.1, hb.2.2.2.2.2.1, hb.2.2.2.2.2.2⟩
  · intro t ht
    have hx := hb.2.2.1 t ht
    rw [Nat.zero_add] at hx
    exact hx
  · intro k hkroot hksub
    rw [hb.2.2.2.1 k hkroot (fun i _ => hksub i)]
    dsimp only
    rw [getAssoc_updateAssoc_ne _ _ _ _ hkroot]

def effAgentName (d : SubDescr) : String :=
  match d.agent with
  | Option.none => selectAgent d.intent
  | some a => if a = "" then selectAgent d.intent else a

def descrOutcome (o : Orchestrator) (rootCtx : List (String × PyValue)) (d : SubDescr) :
    Except String PyValue :=
  match getAssoc o.agents (effAgentName d) with
  | some ag => ag.execute d.intent (mergeCtx rootCtx d.context)
  | Option.none => Except.error ("No agent available: " ++ effAgentName d)

theorem taskAgentName_mkSubTask (now : Nat) (rootId : String)
    (ctx : List (String × PyValue)) (i : Nat) (d : SubDescr) :
    taskAgentName (mkSubTask now rootId ctx i d) = effAgentName d := rfl

theorem taskOutcome_mkSubTask (o : Orchestrator) (now : Nat) (rootId : String)
    (ctx : List (String × PyValue)) (i : Nat) (d : SubDescr) :
    taskOutcome o (mkSubTask now rootId ctx i d) = descrOutcome o ctx d := rfl

def pendList (now : Nat) (rootId : String) (rootCtx : List (String × PyValue)) :
    Nat → List SubDescr → List (String × Task)
  | _, [] => []
  | j, d :: ds =>
    (subId rootId j, mkSubTask now rootId rootCtx j d) :: pendList now rootId rootCtx (j + 1) ds

theorem pendList_map_fst (now : Nat) (rootId : String) (rootCtx : List (String × PyValue)) :
    ∀ (ds : List SubDescr) (j : Nat),
    (pendList now rootId rootCtx j ds).map Prod.fst = subIdsFrom rootId j ds := by
  intro ds
  induction ds with
  | nil => intro j; rfl
  | cons d rest ih =>
    intro j
    simp only [pendList, List.map_cons, subIdsFrom, ih]

theorem pendList_outcomes (o : Orchestrator) (now : Nat) (rootId : String)
    (rootCtx : List (String × PyValue)) :
    ∀ (ds : List SubDescr) (j : Nat),
    (pendList now rootId rootCtx j ds).map (fun p => taskOutcome o p.2) =
      ds.map (descrOutcome o rootCtx) := by
  intro ds
  induction ds with
  | nil => intro j; rfl
  | cons d rest ih =>
    intro j
    simp only [pendList, List.map_cons, ih, taskOutcome_mkSubTask]

theorem mem_pendList {now : Nat} {rootId : String} {rootCtx : List (String × PyValue)} :
    ∀ {ds : List SubDescr} {j : Nat} {p : String × Task},
    p ∈ pendList now rootId rootCtx j ds →
    ∃ t, ∃ ht : t < ds.length,
      p = (subId rootId (j + t), mkSubTask now rootId rootCtx (j + t) (ds.get ⟨t, ht⟩)) := by
  intro ds
  induction ds with
  | nil =>
    intro j p h
    simp [pendList] at h
  | cons d rest ih =>
    intro j p h
    simp only [pendList, List.mem_cons] at h
    rcases h with h | h
    · exact ⟨0, by simp, by simpa using h⟩
    · obtain ⟨t, ht, he⟩ := ih h
      refine ⟨t + 1, by simpa using ht, ?_⟩
      rw [he]
      have : j + 1 + t = j + (t + 1) := by omega
      rw [this]
      rfl

/-! Count and partition lemmas for the aggregation of gathered subtask
outcomes, and the top-level failure-isolation theorem over
`Orchestrator.execute`. -/

theorem okCount_filter (l : List (Except String PyValue)) :
    okCount l = (l.filter (fun r => !isErr r)).length := by
  induction l with
  | nil => rfl
  | cons r rest ih =>
    simp only [okCount, List.filter_cons]
    cases h : isErr r <;> simp [h, ih] <;> omega

theorem errCount_filter (l : List (Except String PyValue)) :
    errCount l = (l.filter isErr).length := by
  induction l with
  | nil => rfl
  | cons r rest ih =>
    simp only [errCount, List.filter_cons]
    cases h : isErr r <;> simp [h, ih] <;> omega

/-- When every successful agent result passes the Python `"error" in r`
membership test negatively, the two comprehensions of
`_aggregate_results` split the gathered result list into exactly the
successful outcomes and the caught-exception error dicts, in order. -/
theorem splitResults_outcomes :
    ∀ (outs : List (Except String PyValue)),
    (∀ r ∈ outs, ∀ v, r = Except.ok v → pyInResult "error" v = Except.ok false) →
    splitResults (outs.map resultOf) =
      Except.ok ((outs.filter (fun r => !isErr r)).map resultOf,
        (outs.filter isErr).map resultOf) := by
  intro outs
  induction outs with
  | nil => intro h; rfl
  | cons r rest ih =>
    intro h
    have hrest := ih (fun q hq v hv => h q (List.mem_cons_of_mem _ hq) v hv)
    cases r with
    | error e =>
      have h1 : pyInResult "error" (resultOf (Except.error e)) = Except.ok true := rfl
      simp only [List.map_cons, splitResults, h1, hrest, List.filter_cons]
      simp [isErr]
    | ok v =>
      have h1 : pyInResult "error" (resultOf (Except.ok v)) = Except.ok false :=
        h (Except.ok v) (List.mem_cons_self _ _) v rfl
      simp only [List.map_cons, splitResults, h1, hrest, List.filter_cons]
      simp [isErr]

/-- Index-to-membership direction for the pending-task list: the pair
registered for index `t` is a member. -/
theorem pendList_get_mem (now : Nat) (rootId : String)
    (rootCtx : List (String × PyValue)) :
    ∀ (ds : List SubDescr) (j t : Nat) (ht : t < ds.length),
    (subId rootId (j + t), mkSubTask now rootId rootCtx (j + t) (ds.get ⟨t, ht⟩)) ∈
      pendList now rootId rootCtx j ds := by
  intro ds
  induction ds with
  | nil => intro j t ht; exact absurd ht (by simp)
  | cons d rest ih =>
    intro j t ht
    cases t with
    | zero =>
      simp only [pendList, List.mem_cons]
      left
      rfl
    | succ t2 =>
      have ht2 : t2 < rest.length := by
        simp only [List.length_cons] at ht
        omega
      have h := ih (j + 1) t2 ht2
      simp only [pendList, List.mem_cons]
      right
      have he : j + 1 + t2 = j + (t2 + 1) := by omega
      rw [he] at h
      exact h

/-- Root task record created at the top of `Orchestrator.execute`. -/
def rootTask (workflow_id : String) (now : Nat) (intent : String)
    (context : List (String × PyValue)) (priority : TaskPriority) : Task :=
  { id := "task_" ++ workflow_id ++ "_root"
    intent := intent
    priority := priority
    status := TaskStatus.pending
    assigned_agent := Option.none
    parent_task_id := Option.none
    subtasks := []
    context := context
    result := Option.none
    error := Option.none
    created_at := now
    completed_at := Option.none
    checkpoint_id := Option.none }

/-- Initial workflow state of a run, holding only the root task. -/
def initWf (workflow_id : String) (now : Nat) (intent : String)
    (context : List (String × PyValue)) (priority : TaskPriority) : WorkflowState :=
  { workflow_id := workflow_id
    tasks := [("task_" ++ workflow_id ++ "_root",
      rootTask workflow_id now intent context priority)]
    active_agents := []
    completed_count := 0
    failed_count := 0
    started_at := now }

/-- Root task as `_dispatch` leaves it when a dispatcher analyzes the
intent into descriptors: DISPATCHED, with the generated sub ids. -/
def dispatchedRoot (workflow_id : String) (now : Nat) (intent : String)
    (context : List (String × PyValue)) (priority : TaskPriority)
    (descrs : List SubDescr) : Task :=
  { rootTask workflow_id now intent context priority with
      status := TaskStatus.dispatched
      subtasks := subIdsFrom ("task_" ++ workflow_id ++ "_root") 0 descrs }

/-- Continuation of `Orchestrator.execute` after the root task and the
initial state are built, as a function of the dispatch outcome; spelled
out so a run can be analyzed by rewriting the dispatch result. -/
def execCont (o : Orchestrator) (workflow_id : String) (now : Nat) (rootId : String)
    (root : Task) : (Except String (List String)) × WorkflowState → ExecOutcome
  | (Except.error e, wf1) =>
    execFail rootId e { wf := wf1, memory := o.memory, trace := [] }
  | (Except.ok subIds, wf1) =>
    let rs1 : RunState := { wf := wf1, memory := o.memory, trace := [] }
    let pr := executeSubtasks o now subIds rs1
    let rootCur := (getAssoc pr.2.wf.tasks rootId).getD root
    match aggregateResults rootCur pr.1 with
    | Except.error e => execFail rootId e pr.2
    | Except.ok agg =>
      let root2 := { rootCur with
        status := TaskStatus.completed
        completed_at := some now
        result := some agg.toPy }
      let wf2 := { pr.2.wf with tasks := updateAssoc pr.2.wf.tasks rootId root2 }
      { res := Except.ok (WorkflowResult.completed workflow_id rootId agg
          wf2.completed_count wf2.failed_count)
        rs := { pr.2 with wf := wf2 } }

theorem execute_as_cont (o : Orchestrator) (workflow_id : String) (now : Nat)
    (intent : String) (context : List (String × PyValue)) (priority : TaskPriority) :
    o.execute workflow_id now intent context priority =
      execCont o workflow_id now ("task_" ++ workflow_id ++ "_root")
        (rootTask workflow_id now intent context priority)
        (dispatch o now ("task_" ++ workflow_id ++ "_root")
          (initWf workflow_id now intent context priority)) := rfl

/-- CLAIMS C3: failure isolation of the gathered subtask runs.  For a
dispatch producing `descrs` subtask descriptors (no compliance agent
registered, every descriptor priority valid, every resolved agent
registered, successful results passing the Python `"error" in r` test
negatively): each raising subtask is caught and recorded FAILED with
its error string, the sibling subtasks still complete, the workflow
counters report exactly the number of successful and failed outcomes,
each failure contributes an error dict to the gathered result list
instead of aborting the batch, and the root task reaches COMPLETED
with the aggregate result. -/
theorem claim3_failure_isolation (o : Orchestrator) (workflow_id : String) (now : Nat)
    (intent : String) (context : List (String × PyValue)) (priority : TaskPriority)
    (da : AgentImpl) (descrs : List SubDescr)
    (rootId : String) (outs : List (Except String PyValue))
    (hrid : rootId = "task_" ++ workflow_id ++ "_root")
    (houts : outs = descrs.map (descrOutcome o context))
    (hnc : getAssoc o.agents "compliance" = Option.none)
    (hda : getAssoc o.agents "dispatcher" = some da)
    (hana : da.analyze intent context = Except.ok descrs)
    (hpr : ∀ d ∈ descrs, (TaskPriority.ofInt d.priority).isSome = true)
    (hag : ∀ d ∈ descrs, (getAssoc o.agents (effAgentName d)).isSome = true)
    (hok : ∀ d ∈ descrs, ∀ v, descrOutcome o context d = Except.ok v →
      pyInResult "error" v = Except.ok false) :
    (o.execute workflow_id now intent context priority).res =
      Except.ok (WorkflowResult.completed workflow_id rootId
        { summary := "Completed " ++ pyNatRepr (okCount outs) ++ "/"
            ++ pyNatRepr descrs.length ++ " subtasks"
          successful_results := (outs.filter (fun r => !isErr r)).map resultOf
          failures := (outs.filter isErr).map resultOf
          all_subtask_ids := subIdsFrom rootId 0 descrs }
        (okCount outs) (errCount outs)) ∧
    (o.execute workflow_id now intent context priority).rs.wf.completed_count =
      okCount outs ∧
    (o.execute workflow_id now intent context priority).rs.wf.failed_count =
      errCount outs ∧
    okCount outs + errCount outs = descrs.length ∧
    (∀ t, ∀ ht : t < descrs.length, ∀ e,
      descrOutcome o context (descrs.get ⟨t, ht⟩) = Except.error e →
      ∃ tk, getAssoc (o.execute workflow_id now intent context priority).rs.wf.tasks
          (subId rootId t) = some tk ∧
        tk.status = TaskStatus.failed ∧ tk.error = some e) ∧
    (∀ t, ∀ ht : t < descrs.length, ∀ v,
      descrOutcome o context (descrs.get ⟨t, ht⟩) = Except.ok v →
      ∃ tk, getAssoc (o.execute workflow_id now intent context priority).rs.wf.tasks
          (subId rootId t) = some tk ∧
        tk.status = TaskStatus.completed ∧ tk.result = some v) ∧
    (∃ rt, getAssoc (o.execute workflow_id now intent context priority).rs.wf.tasks rootId =
      some rt ∧ rt.status = TaskStatus.completed) := by
  subst hrid
  subst houts
  have hroot0 : getAssoc (initWf workflow_id now intent context priority).tasks ("task_" ++ workflow_id ++ "_root") = some (rootTask workflow_id now intent context priority) := by
    simp [initWf, getAssoc]
  have hfresh0 : ∀ i, getAssoc (initWf workflow_id now intent context priority).tasks (subId ("task_" ++ workflow_id ++ "_root") i) = Option.none := by
    intro i
    have h := subId_ne_rootId ("task_" ++ workflow_id ++ "_root") i
    simp [initWf, getAssoc, Ne.symm h]
  have hdisp := dispatch_spec o now ("task_" ++ workflow_id ++ "_root") (initWf workflow_id now intent context priority) (rootTask workflow_id now intent context priority) da descrs hda hroot0 hana hfresh0 hpr
  have hdispPair : (dispatch o now ("task_" ++ workflow_id ++ "_root") (initWf workflow_id now intent context priority)) = (Except.ok (subIdsFrom ("task_" ++ workflow_id ++ "_root") 0 descrs), (dispatch o now ("task_" ++ workflow_id ++ "_root") (initWf workflow_id now intent context priority)).2) := Prod.ext hdisp.1 rfl
  have hpresP : ∀ p ∈ (pendList now ("task_" ++ workflow_id ++ "_root") context 0 descrs), getAssoc ({ wf := (dispatch o now ("task_" ++ workflow_id ++ "_root") (initWf workflow_id now intent context priority)).2, memory := o.memory, trace := [] } : RunState).wf.tasks p.1 = some p.2 := by
    intro p hp
    obtain ⟨t, ht, he⟩ := mem_pendList hp
    subst he
    dsimp only
    rw [Nat.zero_add]
    exact hdisp.2.2.1 t ht
  have hnodupP : ((pendList now ("task_" ++ workflow_id ++ "_root") context 0 descrs).map Prod.fst).Nodup := by
    rw [pendList_map_fst]
    exact nodup_subIdsFrom _ descrs 0
  have hagP : ∀ p ∈ (pendList now ("task_" ++ workflow_id ++ "_root") context 0 descrs), (getAssoc o.agents (taskAgentName p.2)).isSome = true := by
    intro p hp
    obtain ⟨t, ht, he⟩ := mem_pendList hp
    subst he
    dsimp only
    rw [taskAgentName_mkSubTask]
    exact hag _ (descrs.get_mem t ht)
  have hsub := executeSubtasks_nc_spec o now hnc (pendList now ("task_" ++ workflow_id ++ "_root") context 0 descrs) ({ wf := (dispatch o now ("task_" ++ workflow_id ++ "_root") (initWf workflow_id now intent context priority)).2, memory := o.memory, trace := [] } : RunState) hpresP hnodupP hagP
  have hEfold : executeSubtasks o now (subIdsFrom ("task_" ++ workflow_id ++ "_root") 0 descrs) ({ wf := (dispatch o now ("task_" ++ workflow_id ++ "_root") (initWf workflow_id now intent context priority)).2, memory := o.memory, trace := [] } : RunState) = executeSubtasks o now ((pendList now ("task_" ++ workflow_id ++ "_root") context 0 descrs).map Prod.fst) ({ wf := (dispatch o now ("task_" ++ workflow_id ++ "_root") (initWf workflow_id now intent context priority)).2, memory := o.memory, trace := [] } : RunState) := by
    rw [pendList_map_fst]
  rw [← hEfold] at hsub
  have houtsEq : (pendList now ("task_" ++ workflow_id ++ "_root") context 0 descrs).map (fun p => taskOutcome o p.2) = (descrs.map (descrOutcome o context)) :=
    pendList_outcomes o now ("task_" ++ workflow_id ++ "_root") context descrs 0
  rw [houtsEq] at hsub
  have hres2 : (pendList now ("task_" ++ workflow_id ++ "_root") context 0 descrs).map (fun p => resultOf (taskOutcome o p.2)) = (descrs.map (descrOutcome o context)).map resultOf := by
    rw [← houtsEq, List.map_map]
    rfl
  have hsubPair : executeSubtasks o now (subIdsFrom ("task_" ++ workflow_id ++ "_root") 0 descrs) ({ wf := (dispatch o now ("task_" ++ workflow_id ++ "_root") (initWf workflow_id now intent context priority)).2, memory := o.memory, trace := [] } : RunState) = ((descrs.map (descrOutcome o context)).map resultOf, (executeSubtasks o now (subIdsFrom ("task_" ++ workflow_id ++ "_root") 0 descrs) ({ wf := (dispatch o now ("task_" ++ workflow_id ++ "_root") (initWf workflow_id now intent context priority)).2, memory := o.memory, trace := [] } : RunState)).2) :=
    Prod.ext (hsub.1.trans hres2) rfl
  have hrootPend : ∀ p ∈ (pendList now ("task_" ++ workflow_id ++ "_root") context 0 descrs), p.1 ≠ "task_" ++ workflow_id ++ "_root" := by
    intro p hp
    obtain ⟨t, ht, he⟩ := mem_pendList hp
    subst he
    exact subId_ne_rootId _ _
  have hroot2 := hsub.2.2.2.2.1 ("task_" ++ workflow_id ++ "_root") hrootPend
  dsimp only at hroot2
  rw [hdisp.2.1] at hroot2
  have hroot1eq : ({ rootTask workflow_id now intent context priority with status := TaskStatus.dispatched, subtasks := (rootTask workflow_id now intent context priority).subtasks ++ subIdsFrom ("task_" ++ workflow_id ++ "_root") 0 descrs } : Task) = dispatchedRoot workflow_id now intent context priority descrs := rfl
  rw [hroot1eq] at hroot2
  have hok2 : ∀ r ∈ (descrs.map (descrOutcome o context)), ∀ v, r = Except.ok v → pyInResult "error" v = Except.ok false := by
    intro r hr v hv
    obtain ⟨d, hdm, hde⟩ := List.mem_map.mp hr
    subst hde
    exact hok d hdm v hv
  have haggE : aggregateResults (dispatchedRoot workflow_id now intent context priority descrs) ((descrs.map (descrOutcome o context)).map resultOf) = Except.ok { summary := "Completed " ++ pyNatRepr (okCount (descrs.map (descrOutcome o context))) ++ "/" ++ pyNatRepr descrs.length ++ " subtasks", successful_results := ((descrs.map (descrOutcome o context)).filter (fun r => !isErr r)).map resultOf, failures := ((descrs.map (descrOutcome o context)).filter isErr).map resultOf, all_subtask_ids := subIdsFrom ("task_" ++ workflow_id ++ "_root") 0 descrs } := by
    unfold aggregateResults
    rw [splitResults_outcomes _ hok2]
    simp [okCount_filter, dispatchedRoot, rootTask, List.length_map]
  have hcc : (executeSubtasks o now (subIdsFrom ("task_" ++ workflow_id ++ "_root") 0 descrs) ({ wf := (dispatch o now ("task_" ++ workflow_id ++ "_root") (initWf workflow_id now intent context priority)).2, memory := o.memory, trace := [] } : RunState)).2.wf.completed_count = okCount (descrs.map (descrOutcome o context)) := by
    have h1 := hsub.2.1
    dsimp only at h1
    rw [hdisp.2.2.2.2.1] at h1
    simp only [initWf, Nat.zero_add] at h1
    exact h1
  have hfc : (executeSubtasks o now (subIdsFrom ("task_" ++ workflow_id ++ "_root") 0 descrs) ({ wf := (dispatch o now ("task_" ++ workflow_id ++ "_root") (initWf workflow_id now intent context priority)).2, memory := o.memory, trace := [] } : RunState)).2.wf.failed_count = errCount (descrs.map (descrOutcome o context)) := by
    have h1 := hsub.2.2.1
    dsimp only at h1
    rw [hdisp.2.2.2.2.2.1] at h1
    simp only [initWf, Nat.zero_add] at h1
    exact h1
  have hEx : o.execute workflow_id now intent context priority = { res := Except.ok (WorkflowResult.completed workflow_id ("task_" ++ workflow_id ++ "_root") { summary := "Completed " ++ pyNatRepr (okCount (descrs.map (descrOutcome o context))) ++ "/" ++ pyNatRepr descrs.length ++ " subtasks", successful_results := ((descrs.map (descrOutcome o context)).filter (fun r => !isErr r)).map resultOf, failures := ((descrs.map (descrOutcome o context)).filter isErr).map resultOf, all_subtask_ids := subIdsFrom ("task_" ++ workflow_id ++ "_root") 0 descrs } (executeSubtasks o now (subIdsFrom ("task_" ++ workflow_id ++ "_root") 0 descrs) ({ wf := (dispatch o now ("task_" ++ workflow_id ++ "_root") (initWf workflow_id now intent context priority)).2, memory := o.memory, trace := [] } : RunState)).2.wf.completed_count (executeSubtasks o now (subIdsFrom ("task_" ++ workflow_id ++ "_root") 0 descrs) ({ wf := (dispatch o now ("task_" ++ workflow_id ++ "_root") (initWf workflow_id now intent context priority)).2, memory := o.memory, trace := [] } : RunState)).2.wf.failed_count), rs := { (executeSubtasks o now (subIdsFrom ("task_" ++ workflow_id ++ "_root") 0 descrs) ({ wf := (dispatch o now ("task_" ++ workflow_id ++ "_root") (initWf workflow_id now intent context priority)).2, memory := o.memory, trace := [] } : RunState)).2 with wf := { (executeSubtasks o now (subIdsFrom ("task_" ++ workflow_id ++ "_root") 0 descrs) ({ wf := (dispatch o now ("task_" ++ workflow_id ++ "_root") (initWf workflow_id now intent context priority)).2, memory := o.memory, trace := [] } : RunState)).2.wf with tasks := updateAssoc (executeSubtasks o now (subIdsFrom ("task_" ++ workflow_id ++ "_root") 0 descrs) ({ wf := (dispatch o now ("task_" ++ workflow_id ++ "_root") (initWf workflow_id now intent context priority)).2, memory := o.memory, trace := [] } : RunState)).2.wf.tasks ("task_" ++ workflow_id ++ "_root") { dispatchedRoot workflow_id now intent context priority descrs with status := TaskStatus.completed, completed_at := some now, result := some (AggResult.toPy { summary := "Completed " ++ pyNatRepr (okCount (descrs.map (descrOutcome o context))) ++ "/" ++ pyNatRepr descrs.length ++ " subtasks", successful_results := ((descrs.map (descrOutcome o context)).filter (fun r => !isErr r)).map resultOf, failures := ((descrs.map (descrOutcome o context)).filter isErr).map resultOf, all_subtask_ids := subIdsFrom ("task_" ++ workflow_id ++ "_root") 0 descrs }) } } } } := by
    rw [execute_as_cont, hdispPair]
    simp only [execCont]
    rw [hsubPair]
    dsimp only
    rw [hroot2]
    simp only [Option.getD_some]
    rw [haggE]
  refine ⟨?_, ?_, ?_, ?_, ?_, ?_, ?_⟩
  · rw [hEx]
    dsimp only
    rw [hcc, hfc]
  · rw [hEx]
    dsimp only
    exact hcc
  · rw [hEx]
    dsimp only
    exact hfc
  · have h := okCount_add_errCount (descrs.map (descrOutcome o context))
    rwa [List.length_map] at h
  · intro t ht e he
    rw [hEx]
    dsimp only
    rw [getAssoc_updateAssoc_ne _ _ _ _ (subId_ne_rootId _ t)]
    have hmemT : (subId ("task_" ++ workflow_id ++ "_root") t, mkSubTask now ("task_" ++ workflow_id ++ "_root") context t (descrs.get ⟨t, ht⟩)) ∈ (pendList now ("task_" ++ workflow_id ++ "_root") context 0 descrs) := by
      have h := pendList_get_mem now ("task_" ++ workflow_id ++ "_root") context descrs 0 t ht
      rwa [Nat.zero_add] at h
    have hpt := hsub.2.2.2.1 _ hmemT
    dsimp only at hpt
    rw [hpt]
    have hto : taskOutcome o (mkSubTask now ("task_" ++ workflow_id ++ "_root") context t (descrs.get ⟨t, ht⟩)) = Except.error e := by
      rw [taskOutcome_mkSubTask]
      exact he
    refine ⟨_, rfl, ?_, ?_⟩
    · unfold finalSubTask
      rw [hto]
    · unfold finalSubTask
      rw [hto]
  · intro t ht v hv
    rw [hEx]
    dsimp only
    rw [getAssoc_updateAssoc_ne _ _ _ _ (subId_ne_rootId _ t)]
    have hmemT : (subId ("task_" ++ workflow_id ++ "_root") t, mkSubTask now ("task_" ++ workflow_id ++ "_root") context t (descrs.get ⟨t, ht⟩)) ∈ (pendList now ("task_" ++ workflow_id ++ "_root") context 0 descrs) := by
      have h := pendList_get_mem now ("task_" ++ workflow_id ++ "_root") context descrs 0 t ht
      rwa [Nat.zero_add] at h
    have hpt := hsub.2.2.2.1 _ hmemT
    dsimp only at hpt
    rw [hpt]
    have hto : taskOutcome o (mkSubTask now ("task_" ++ workflow_id ++ "_root") context t (descrs.get ⟨t, ht⟩)) = Except.ok v := by
      rw [taskOutcome_mkSubTask]
      exact hv
    refine ⟨_, rfl, ?_, ?_⟩
    · unfold finalSubTask
      rw [hto]
    · unfold finalSubTask
      rw [hto]
  · rw [hEx]
    dsimp only
    exact ⟨_, getAssoc_updateAssoc_self _ _ _, rfl⟩

/-- Worker agent of the concrete failure-isolation scenario: raises on
the intent "boom", succeeds otherwise. -/
def c3Worker : AgentImpl :=
  { execute := fun intent _ =>
      if intent = "boom" then Except.error "worker crashed"
      else Except.ok (PyValue.str ("did " ++ intent))
    check := fun _ _ => Except.ok []
    analyze := fun _ _ => Except.ok [] }

/-- Three subtask descriptors; the second targets the raising intent. -/
def c3Descrs : List SubDescr :=
  [{ intent := "a", agent := some "worker", priority := 2, context := [] },
   { intent := "boom", agent := some "worker", priority := 2, context := [] },
   { intent := "c", agent := some "worker", priority := 2, context := [] }]

/-- Dispatcher agent returning the three descriptors. -/
def c3Dispatcher : AgentImpl :=
  { execute := fun _ _ => Except.ok PyValue.none
    check := fun _ _ => Except.ok []
    analyze := fun _ _ => Except.ok c3Descrs }

/-- Orchestrator of the scenario: a dispatcher and a worker, no
compliance agent, no memory manager. -/
def c3Orch : Orchestrator :=
  { agents := [("dispatcher", c3Dispatcher), ("worker", c3Worker)]
    memory := Option.none
    max_parallel := 2
    human_in_loop := false }

/-- The three gathered outcomes of the scenario, in order. -/
def c3Outs : List (Except String PyValue) :=
  [Except.ok (PyValue.str "did a"), Except.error "worker crashed",
   Except.ok (PyValue.str "did c")]

/-- Witness: the failure-isolation theorem at the concrete three-subtask
scenario in which the second subtask raises — two completions, one
recorded failure, root COMPLETED. -/
theorem claim3_failure_isolation_witness :
    (c3Orch.execute "w" 9 "run all" [] TaskPriority.medium).res =
      Except.ok (WorkflowResult.completed "w" "task_w_root"
        { summary := "Completed " ++ pyNatRepr (okCount c3Outs) ++ "/"
            ++ pyNatRepr c3Descrs.length ++ " subtasks"
          successful_results := (c3Outs.filter (fun r => !isErr r)).map resultOf
          failures := (c3Outs.filter isErr).map resultOf
          all_subtask_ids := subIdsFrom "task_w_root" 0 c3Descrs }
        (okCount c3Outs) (errCount c3Outs)) ∧
    (c3Orch.execute "w" 9 "run all" [] TaskPriority.medium).rs.wf.completed_count =
      okCount c3Outs ∧
    (c3Orch.execute "w" 9 "run all" [] TaskPriority.medium).rs.wf.failed_count =
      errCount c3Outs ∧
    okCount c3Outs + errCount c3Outs = c3Descrs.length ∧
    (∀ t, ∀ ht : t < c3Descrs.length, ∀ e,
      descrOutcome c3Orch [] (c3Descrs.get ⟨t, ht⟩) = Except.error e →
      ∃ tk, getAssoc (c3Orch.execute "w" 9 "run all" [] TaskPriority.medium).rs.wf.tasks
          (subId "task_w_root" t) = some tk ∧
        tk.status = TaskStatus.failed ∧ tk.error = some e) ∧
    (∀ t, ∀ ht : t < c3Descrs.length, ∀ v,
      descrOutcome c3Orch [] (c3Descrs.get ⟨t, ht⟩) = Except.ok v →
      ∃ tk, getAssoc (c3Orch.execute "w" 9 "run all" [] TaskPriority.medium).rs.wf.tasks
          (subId "task_w_root" t) = some tk ∧
        tk.status = TaskStatus.completed ∧ tk.result = some v) ∧
    (∃ rt, getAssoc (c3Orch.execute "w" 9 "run all" [] TaskPriority.medium).rs.wf.tasks
        "task_w_root" = some rt ∧ rt.status = TaskStatus.completed) :=
  claim3_failure_isolation c3Orch "w" 9 "run all" [] TaskPriority.medium c3Dispatcher
    c3Descrs "task_w_root" c3Outs rfl rfl rfl rfl rfl (by decide) (by decide)
    (by
      intro d hdm v hv
      simp only [c3Descrs, List.mem_cons, List.not_mem_nil, or_false] at hdm
      rcases hdm with rfl | rfl | rfl
      · have h2 : Except.ok (PyValue.str "did a") = Except.ok v := hv
        injection h2 with h3
        subst h3
        rfl
      · have h2 : (Except.error "worker crashed" : Except String PyValue) = Except.ok v := hv
        exact Except.noConfusion h2
      · have h2 : Except.ok (PyValue.str "did c") = Except.ok v := hv
        injection h2 with h3
        subst h3
        rfl)

end NexusSpec
